import Mathlib

/-!
Verification development for the Penguin compiler (cs-25-sw-4-15/penguinlang).

The definitions below are a shallow embedding of the compiler back half:

* the type/scope checker of src/astTypeChecker.py over the semantic types
  of src/asttypes.py and the hardware vocabulary of src/predefinedVnF.py;
* the assembly header emitted by src/codegen.py;
* the IR instruction set of src/IRProgram.py, the liveness analysis of
  src/LivenessAnalyzer.py, the linear-scan allocator of src/LinearScanner.py
  and the IR rewriter of src/IRRewriter.py.

Python dictionaries are modelled as association lists whose update shadows
the previous binding; only lookups (and, for the rewriter, the maximum over
all values) are observed by the modelled code, and those agree with the
dictionary semantics.  Exceptions raised by the checker are modelled with
Except; logging calls have no observable effect and are dropped.
-/

namespace Penguin

/-- Semantic types of the Penguin language (src/asttypes.py).  Equality of
two types in the source compares the Python classes, and for list types
additionally the element types; structural equality of this inductive agrees
with that. -/
inductive PType where
  | intT
  | stringT
  | voidT
  | tilesetT
  | tilemapT
  | spriteT
  | oamentryT
  | listT (elementType : PType)
deriving Repr, DecidableEq

/-- The checker's error classes (src/customErrors.py).  The variants carry
the offending name where the source interpolates one into the message;
other message text is not modelled.  `pythonTypeError` stands for the plain
TypeError raised for unknown operators and for return-outside-procedure. -/
inductive CheckError where
  | duplicateDeclaration (name : String)
  | undeclaredVariable (name : String)
  | typeMismatch
  | invalidType (name : String)
  | invalidAttribute (name : String)
  | pythonTypeError (msg : String)
deriving Repr, DecidableEq

/-- str.lower() on the letters the type names use (the type vocabulary is
ASCII). -/
def pyToLower (s : String) : String :=
  String.mk (s.toList.map Char.toLower)

/-- TypeChecker.string_to_type: the recognised type names, lower-cased
before lookup; an unrecognised name raises InvalidTypeError.  The source's
`list` entry is `ListType()`, whose default element type is `IntType()`. -/
def stringToType (typeStr : String) : Except CheckError PType :=
  match pyToLower typeStr with
  | "int" => .ok .intT
  | "tileset" => .ok .tilesetT
  | "tilemap" => .ok .tilemapT
  | "sprite" => .ok .spriteT
  | "string" => .ok .stringT
  | "void" => .ok .voidT
  | "oamentry" => .ok .oamentryT
  | "list" => .ok (.listT .intT)
  | other => .error (.invalidType other)

/-- One scope of the symbol table: a Python dict from names to types. -/
abbrev Scope := List (String × PType)

/-- Dictionary lookup in one scope. -/
def scopeFind (sc : Scope) (name : String) : Option PType :=
  (sc.find? (fun p => p.1 = name)).map (·.2)

/-- Dictionary assignment in one scope (shadows any previous binding). -/
def scopeSet (sc : Scope) (name : String) (t : PType) : Scope :=
  (name, t) :: sc.eraseP (fun p => p.1 = name)

/-- TypeEnv (src/astTypeChecker.py lines 46-67): a stack of scopes.  The
source keeps the innermost scope at the end of a Python list; here the
innermost scope is the head, so innermost-first lookup walks the list from
the head.  The checker always keeps at least one scope on the stack. -/
abbrev EnvStack := List Scope

/-- TypeEnv.lookup: innermost-first. -/
def envLookup : EnvStack → String → Option PType
  | [], _ => none
  | sc :: rest, name =>
    match scopeFind sc name with
    | some t => some t
    | none => envLookup rest name

/-- TypeEnv.define: bind in the current (innermost) scope. -/
def envDefine (stack : EnvStack) (name : String) (t : PType) : EnvStack :=
  match stack with
  | [] => [[(name, t)]]
  | sc :: rest => scopeSet sc name t :: rest

/-- TypeEnv.current_scope. -/
def currentScope (stack : EnvStack) : Scope := stack.headD []

/-- A procedure signature: ordered formal (name, type) pairs and the return
type, as stored in ProcedureEnv.table. -/
abbrev ProcSig := List (String × PType) × PType

/-- ProcedureEnv.lookup. -/
def procsLookup (table : List (String × ProcSig)) (name : String) : Option ProcSig :=
  (table.find? (fun p => p.1 = name)).map (·.2)

/-- ProcedureEnv.define (dictionary assignment). -/
def procsDefine (table : List (String × ProcSig)) (name : String) (sig : ProcSig) :
    List (String × ProcSig) :=
  (name, sig) :: table.eraseP (fun p => p.1 = name)

/-- The predefined hardware symbols of initialize_hardware_elements
(src/predefinedVnF.py), in the source's insertion order. -/
def hardwareSymbols : Scope :=
  [ ("display_tileset_block_0", .tilesetT)
  , ("display_tileset_block_1", .tilesetT)
  , ("display_tileset_block_2", .tilesetT)
  , ("display_tilemap0", .tilemapT)
  , ("display_oam_x", .listT .intT)
  , ("display_oam_y", .listT .intT)
  , ("display_oam_tile", .listT .intT)
  , ("display_oam_attr", .listT .intT) ]

/-- The predefined hardware procedure table of initialize_hardware_elements
(src/predefinedVnF.py): every entry takes no parameters; the check
procedures return int, the rest void. -/
def hardwareProcedures : List (String × ProcSig) :=
  [ ("control_LCDon", ([], .voidT))
  , ("control_LCDoff", ([], .voidT))
  , ("control_waitVBlank", ([], .voidT))
  , ("control_updateInput", ([], .voidT))
  , ("control_initPalette", ([], .voidT))
  , ("control_initDisplayRegs", ([], .voidT))
  , ("control_checkLeft", ([], .intT))
  , ("control_checkRight", ([], .intT))
  , ("control_checkUp", ([], .intT))
  , ("control_checkDown", ([], .intT))
  , ("control_checkA", ([], .intT))
  , ("control_checkB", ([], .intT))
  , ("control_checkStart", ([], .intT))
  , ("control_checkSelect", ([], .intT)) ]

/-- The TypeChecker state: symbol-table stack, procedure table, and the
return type of the procedure currently being checked. -/
structure CheckerState where
  env : EnvStack
  procs : List (String × ProcSig)
  currentReturnType : Option PType
deriving Repr, DecidableEq

/-- TypeChecker.__init__ seeded with the hardware symbols and procedures. -/
def initialState : CheckerState :=
  { env := [hardwareSymbols], procs := hardwareProcedures, currentReturnType := none }

/-- The name operand of a procedure call as produced by the AST generator:
either a bare string, a Variable node wrapping a name, or an AttributeAccess
node carrying a base name and an attribute (src/astGenerator.py visitName /
visitProcedureCall). -/
inductive CallName where
  | strN (s : String)
  | varN (name : CallName)
  | attrN (name : CallName) (attr : String)
deriving Repr, DecidableEq

/-- TypeChecker.get_procedure_name (src/astTypeChecker.py lines 141-161):
a string is returned as is; a node with both a name and an attribute joins
the base name and the attribute with a dot; a node with only a name recurses
into it.  A ProcedureCall node itself has a name and no attribute, so the
checker starts by recursing into the call's name operand. -/
def getProcedureNameAux : CallName → String
  | .strN s => s
  | .attrN base a => getProcedureNameAux base ++ "." ++ a
  | .varN n => getProcedureNameAux n

mutual

/-- Expressions of the AST fed to the checker, restricted to the node kinds
this development reasons about (src/astClasses Program statements and
expressions).  Argument lists are a mutually defined list type so the
checker below is structurally recursive. -/
inductive Expr where
  | integerLit (value : Int)
  | stringLit (value : String)
  | var (name : String)
  | binaryOp (op : String) (left right : Expr)
  | unaryOp (op : String) (operand : Expr)
  | procedureCall (name : CallName) (params : ExprList)
deriving Repr

/-- A list of expressions (procedure call arguments). -/
inductive ExprList where
  | nil
  | cons (head : Expr) (tail : ExprList)
deriving Repr

end

/-- The number of arguments in an argument list. -/
def ExprList.length : ExprList → Nat
  | .nil => 0
  | .cons _ t => t.length + 1

mutual

/-- Statements of the AST fed to the checker.  A Conditional's missing else
body is the empty list (the source tests the body for truthiness, so None
and an empty list behave alike).  A ProcedureDef's params are (name,
type-string) pairs read off its parameter declarations. -/
inductive Stmt where
  | declaration (name : String) (varType : String)
  | initialization (name : String) (varType : String) (value : Expr)
  | assignment (target : Expr) (value : Expr)
  | conditional (condition : Expr) (thenBody : StmtList) (elseBody : StmtList)
  | loop (condition : Expr) (body : StmtList)
  | returnStmt (value : Expr)
  | procedureCallStmt (call : Expr)
  | procedureDef (returnType : Option String) (name : String)
      (params : List (String × String)) (body : StmtList)
deriving Repr

/-- A list of statements (a program or a statement body). -/
inductive StmtList where
  | nil
  | cons (head : Stmt) (tail : StmtList)
deriving Repr

end

/-- The operator sets of check_BinaryOp (src/astTypeChecker.py lines
365-374), in the source's grouping. -/
def complexArithmeticOps : List String := ["*"]

def simpleArithmeticOps : List String := ["+", "-"]

def bitwiseArithmeticOps : List String := ["<<", ">>"]

def xThanOps : List String := ["<", ">", "<=", ">="]

def equalityOps : List String := ["==", "!="]

def bitwiseLogicalOps : List String := ["&", "^", "|"]

def logicalOps : List String := ["and", "or"]

/-- The union of all binary operator sets checked by check_BinaryOp. -/
def allBinaryOps : List String :=
  complexArithmeticOps ++ simpleArithmeticOps ++ bitwiseArithmeticOps ++
    xThanOps ++ equalityOps ++ bitwiseLogicalOps ++ logicalOps

/-- The operator sets of check_UnaryOp (src/astTypeChecker.py lines
400-403). -/
def allUnaryOps : List String := ["-", "+", "~", "not"]

/-- TypeChecker.check_ProcedureDef builds the formal parameter list by
converting each parameter declaration's type string (an InvalidTypeError
propagates). -/
def checkParams : List (String × String) → Except CheckError (List (String × PType))
  | [] => .ok []
  | (n, ts) :: rest => do
    let t ← stringToType ts
    let others ← checkParams rest
    .ok ((n, t) :: others)

/-- check_ProcedureDef then binds each parameter in the fresh scope with a
second string_to_type conversion. -/
def defineParams : EnvStack → List (String × String) → Except CheckError EnvStack
  | env, [] => .ok env
  | env, (n, ts) :: rest => do
    let t ← stringToType ts
    defineParams (envDefine env n t) rest

mutual

/-- TypeChecker.check_node dispatched over expressions.  Expressions never
modify the checker state, so only the resulting type is returned.  The
binary and unary cases follow check_BinaryOp / check_UnaryOp exactly: for a
known operator with a non-int operand the source only logs the operand
error (logger.error) and still returns IntType; the raise present in the
other check methods is absent there. -/
def checkExpr (st : CheckerState) : Expr → Except CheckError PType
  | .integerLit _ => .ok .intT
  | .stringLit _ => .ok .stringT
  | .var name =>
    match envLookup st.env name with
    | some t => .ok t
    | none => .error (.undeclaredVariable name)
  | .binaryOp op l r => do
    let _leftType ← checkExpr st l
    let _rightType ← checkExpr st r
    if op ∈ allBinaryOps then
      -- a non-int operand is logged but not raised; the node yields int
      .ok .intT
    else
      .error (.pythonTypeError ("Unknown binary operator: " ++ op))
  | .unaryOp op operand => do
    let _operandType ← checkExpr st operand
    if op ∈ allUnaryOps then
      -- a non-int operand is logged but not raised; the node yields int
      .ok .intT
    else
      .error (.pythonTypeError ("Unknown unary operator: " ++ op))
  | .procedureCall name params => do
    let procName := getProcedureNameAux name
    match procsLookup st.procs procName with
    | none => .error (.undeclaredVariable procName)
    | some (paramTypes, returnType) =>
      if params.length ≠ paramTypes.length then
        .error .typeMismatch
      else do
        checkArgs st params paramTypes
        .ok returnType

/-- check_ProcedureCall's per-argument loop: each actual argument's type
must equal the expected parameter type. -/
def checkArgs (st : CheckerState) : ExprList → List (String × PType) → Except CheckError Unit
  | .nil, _ => .ok ()
  | .cons _ _, [] => .ok ()
  | .cons arg args, (_, expected) :: rest => do
    let actual ← checkExpr st arg
    if actual ≠ expected then .error .typeMismatch
    else checkArgs st args rest

end

mutual

/-- TypeChecker.check_node dispatched over statements; returns the updated
checker state. -/
def checkStmt (st : CheckerState) : Stmt → Except CheckError CheckerState
  | .declaration name varType =>
    -- duplicate only when the name is bound and bound in the current scope
    if (envLookup st.env name).isSome && (scopeFind (currentScope st.env) name).isSome then
      .error (.duplicateDeclaration name)
    else do
      let t ← stringToType varType
      .ok { st with env := envDefine st.env name t }
  | .initialization name varType value =>
    if (envLookup st.env name).isSome && (scopeFind (currentScope st.env) name).isSome then
      .error (.duplicateDeclaration name)
    else do
      let t ← stringToType varType
      let st1 := { st with env := envDefine st.env name t }
      -- the initialiser is checked after the name is defined
      let valueType ← checkExpr st1 value
      if t ≠ valueType then
        if (t = .tilesetT ∨ t = .tilemapT ∨ t = .spriteT) ∧ valueType = .stringT then
          .ok st1
        else
          .error .typeMismatch
      else
        .ok st1
  | .assignment target value => do
    let targetType ← checkExpr st target
    let valueType ← checkExpr st value
    if targetType ≠ valueType then
      if valueType = .spriteT ∧ targetType = .intT then .ok st
      else .error .typeMismatch
    else
      if targetType = .tilemapT ∨ targetType = .tilesetT ∨ targetType = .spriteT then
        -- these types cannot be reassigned at runtime
        .error .typeMismatch
      else
        .ok st
  | .conditional condition thenBody elseBody => do
    let conditionType ← checkExpr st condition
    if conditionType ≠ .intT then .error .typeMismatch
    else do
      -- the bodies are checked in the surrounding scope; no scope is pushed
      let st1 ← checkStmts st thenBody
      match elseBody with
      | .nil => .ok st1
      | .cons _ _ => checkStmts st1 elseBody
  | .loop condition body => do
    let conditionType ← checkExpr st condition
    if conditionType ≠ .intT then .error .typeMismatch
    else checkStmts st body
  | .returnStmt value => do
    let valueType ← checkExpr st value
    match st.currentReturnType with
    | none => .error (.pythonTypeError "Return statement outside of procedure")
    | some rt =>
      if valueType ≠ rt then .error .typeMismatch
      else if rt = .voidT then
        -- a void procedure must not return a value
        .error .typeMismatch
      else .ok st
  | .procedureCallStmt call => do
    let _ ← checkExpr st call
    .ok st
  | .procedureDef returnType name params body =>
    if (procsLookup st.procs name).isSome then
      .error (.duplicateDeclaration name)
    else do
      let paramTypes ← checkParams params
      let retT ← match returnType with
        | some s => stringToType s
        | none => .ok PType.voidT
      -- the procedure is defined before its body is checked
      let procs1 := procsDefine st.procs name (paramTypes, retT)
      let env1 := ([] : Scope) :: st.env
      let env2 ← defineParams env1 params
      let prev := st.currentReturnType
      let st1 : CheckerState := { env := env2, procs := procs1, currentReturnType := some retT }
      let st2 ← checkStmts st1 body
      -- pop the procedure scope and restore the previous return type
      .ok { st2 with env := st2.env.tail, currentReturnType := prev }

/-- check_program's statement loop (also the loop over a body). -/
def checkStmts (st : CheckerState) : StmtList → Except CheckError CheckerState
  | .nil => .ok st
  | .cons s rest => do
    let st1 ← checkStmt st s
    checkStmts st1 rest

end

/-- TypeChecker.check_program on a fresh checker (type_check in
src/astTypeChecker.py): the hardware vocabulary is loaded and the top-level
statements are checked in order. -/
def checkProgram (statements : StmtList) : Except CheckError CheckerState :=
  checkStmts initialState statements

/-! ## Code generator header (src/codegen.py) -/

/-- CodeGenerator.emit_header (src/codegen.py lines 40-56): the fixed header
region of the emitted assembly, one list entry per emit call, verbatim. -/
def emitHeader : List String :=
  [ "; GameBoy ROM generated from Penguin language"
  , "SECTION \"ROM0\", ROM0"
  , "INCLUDE \"hardware.inc\""
  , "\nSECTION \"Header\", ROM0[$100]"
  , "    jp EntryPoint"
  , "    ds $150 - @, 0  ; Make room for the header"
  , "\nEntryPoint:"
  , "    di  ; Disable interrupts"
  , "    ld sp, $FFFE  ; Set stack pointer"
  , "    call Main"
  , "    jp Halt" ]

/-- CodeGenerator.emit_footer (src/codegen.py lines 58-62): the fixed footer
region (the halt loop), verbatim. -/
def emitFooter : List String :=
  [ "\nHalt:"
  , "    halt"
  , "    jp Halt" ]

/-- Whether the first list is a leading segment of the second. -/
def leadingSegment : List Char → List Char → Bool
  | [], _ => true
  | _ :: _, [] => false
  | p :: ps, c :: cs => p = c && leadingSegment ps cs

/-- Whether the pattern occurs contiguously somewhere in the list. -/
def hasSubChars (pat : List Char) : List Char → Bool
  | [] => leadingSegment pat []
  | c :: cs => leadingSegment pat (c :: cs) || hasSubChars pat cs

/-- Substring occurrence test on strings. -/
def containsSub (s pat : String) : Bool :=
  hasSubChars pat.toList s.toList

/-! ## IR instructions and liveness analysis
(src/IRProgram.py, src/LivenessAnalyzer.py) -/

/-- The IR instruction set (src/IRProgram.py).  Operands are symbolic names.
`argLoad` is the IRArgLoad instruction referenced by src/LivenessAnalyzer.py,
src/LinearScanner.py and src/IRRewriter.py; its class lives in an IR-module
revision not present under src and is modelled from the spec (one ArgLoad
per formal parameter, carrying the destination temporary and the argument
index).  LivenessAnalyzer names the four hardware access variants
IRHardwareLoad / IRHardwareStore / IRHardwareIndexedLoad /
IRHardwareIndexedStore after the same missing revision; the structurally
identical classes of src/IRProgram.py are IRHardwareRead / IRHardwareWrite /
IRHardwareIndexedRead / IRHardwareIndexedWrite, and the embedding uses the
latter names. -/
inductive IRInstr where
  | binaryOp (op dest left right : String)
  | unaryOp (op dest operand : String)
  | assign (dest src : String)
  | constant (dest : String) (value : Int)
  | load (dest addr : String)
  | store (addr value : String)
  | label (name : String)
  | jump (labelName : String)
  | condJump (condition trueLabel : String) (falseLabel : Option String)
  | call (procName : String) (args : List String) (dest : Option String)
  | ret (value : Option String)
  | indexedLoad (dest base index : String)
  | indexedStore (base index value : String)
  | hardwareRead (dest register : String)
  | hardwareWrite (register value : String)
  | hardwareIndexedRead (dest register index : String)
  | hardwareIndexedWrite (register index value : String)
  | hardwareCall (moduleName functionName : String) (args : List String)
  | hardwareMemCpy (dest src size : String)
  | argLoad (dest : String) (argIndex : Nat)
deriving Repr, DecidableEq

/-- The all-digits test of str.isdigit used by _add_if_var (an empty string
is not a digit string). -/
def pyIsDigit (s : String) : Bool :=
  s.toList ≠ [] && s.toList.all Char.isDigit

/-- LivenessAnalyzer._add_if_var: a name joins a use/def set unless it is
a digit string or starts with a quote character (character code 34 or 39). -/
def addIfVar (s : Finset String) (name : String) : Finset String :=
  let startsWithQuote :=
    match name.toList with
    | [] => false
    | c :: _ => c.toNat = 34 || c.toNat = 39
  if !pyIsDigit name && !startsWithQuote then insert name s else s

/-- LivenessAnalyzer._analyze_instr_def_use: the (def, use) sets of one
instruction.  Optional destinations and return values are tested for
presence exactly as the source tests them for truthiness (the compiler
never produces empty-string operand names, which are not modelled).
An IRHardwareMemCpy matches no branch and keeps both sets empty. -/
def instrDefUse : IRInstr → Finset String × Finset String
  | .assign dest src => ({dest}, addIfVar ∅ src)
  | .binaryOp _ dest left right => ({dest}, addIfVar (addIfVar ∅ left) right)
  | .unaryOp _ dest operand => ({dest}, addIfVar ∅ operand)
  | .constant dest _ => ({dest}, ∅)
  | .load dest _ => ({dest}, ∅)
  | .store _ value => (∅, addIfVar ∅ value)
  | .indexedLoad dest _ index => ({dest}, addIfVar ∅ index)
  | .indexedStore _ index value => (∅, addIfVar (addIfVar ∅ index) value)
  | .condJump condition _ _ => (∅, addIfVar ∅ condition)
  | .call _ args dest =>
    (match dest with
     | some d => {d}
     | none => ∅, args.foldl addIfVar ∅)
  | .ret value =>
    (∅, match value with
        | some v => addIfVar ∅ v
        | none => ∅)
  | .hardwareRead dest _ => ({dest}, ∅)
  | .hardwareWrite _ value => (∅, addIfVar ∅ value)
  | .hardwareIndexedRead dest _ index => ({dest}, addIfVar ∅ index)
  | .hardwareIndexedWrite _ index value => (∅, addIfVar (addIfVar ∅ index) value)
  | .hardwareCall _ _ args => (∅, args.foldl addIfVar ∅)
  | .argLoad dest _ => ({dest}, ∅)
  | .label _ => (∅, ∅)
  | .jump _ => (∅, ∅)
  | .hardwareMemCpy _ _ _ => (∅, ∅)

/-- Per-index def set. -/
def defVars (instrs : List IRInstr) (i : Nat) : Finset String :=
  match instrs.get? i with
  | some instr => (instrDefUse instr).1
  | none => ∅

/-- Per-index use set. -/
def useVars (instrs : List IRInstr) (i : Nat) : Finset String :=
  match instrs.get? i with
  | some instr => (instrDefUse instr).2
  | none => ∅

/-- The index of the first IRLabel with the given name (build_cfg scans the
instruction list from the front and stops at the first match). -/
def findLabelIdx (instrs : List IRInstr) (lbl : String) : Option Nat :=
  instrs.findIdx? (fun i =>
    match i with
    | .label name => name = lbl
    | _ => false)

/-- LivenessAnalyzer.build_cfg (src/LivenessAnalyzer.py lines 126-163): the
successor indices of instruction i.  A jump goes to its label's index (or
nowhere if the label is absent); a conditional jump goes to its true label
and either its false label or, with no false label, the fall-through; a
return has no successors; everything else falls through. -/
def cfgSuccs (instrs : List IRInstr) (i : Nat) : List Nat :=
  match instrs.get? i with
  | none => []
  | some instr =>
    match instr with
    | .jump lbl =>
      match findLabelIdx instrs lbl with
      | some j => [j]
      | none => []
    | .condJump _ trueLabel falseLabel =>
      let ts :=
        match findLabelIdx instrs trueLabel with
        | some j => [j]
        | none => []
      match falseLabel with
      | some f =>
        ts ++ (match findLabelIdx instrs f with
               | some j => [j]
               | none => [])
      | none => ts ++ (if i + 1 < instrs.length then [i + 1] else [])
    | .ret _ => []
    | _ => if i + 1 < instrs.length then [i + 1] else []

/-- The live_in / live_out vectors of compute_liveness, indexed by
instruction position. -/
structure LiveState where
  lin : List (Finset String)
  lout : List (Finset String)
deriving DecidableEq

/-- The union of live_in over a successor list, as the source's loop
accumulates it. -/
def outUnion (st : LiveState) (succs : List Nat) : Finset String :=
  succs.foldl (fun acc j => acc ∪ st.lin.getD j ∅) ∅

/-- One index step of compute_liveness's round: recompute live_in and
live_out for instruction i and record whether either changed. -/
def roundStep (instrs : List IRInstr) (s : LiveState × Bool) (i : Nat) :
    LiveState × Bool :=
  if useVars instrs i ∪ (s.1.lout.getD i ∅ \ defVars instrs i) ≠ s.1.lin.getD i ∅ ∨
      outUnion s.1 (cfgSuccs instrs i) ≠ s.1.lout.getD i ∅ then
    (⟨s.1.lin.set i (useVars instrs i ∪ (s.1.lout.getD i ∅ \ defVars instrs i)),
      s.1.lout.set i (outUnion s.1 (cfgSuccs instrs i))⟩, true)
  else
    s

/-- One full round of compute_liveness (src/LivenessAnalyzer.py lines
274-293): indices processed in reverse order; the flag records whether any
set changed.  The source's while loop repeats rounds until a round returns
the flag false. -/
def livenessRound (instrs : List IRInstr) (st : LiveState) : LiveState × Bool :=
  ((List.range instrs.length).reverse).foldl (roundStep instrs) (st, false)

/-! ## Linear-scan register allocation (src/LinearScanner.py) -/

/-- LiveRange (src/LinearScanner.py lines 13-32): a variable together with
the first and last instruction index at which it is live.  The source's
`end` field is called `stop` here (`end` is reserved); the register and
spill fields mutated by the source live in the scan state instead. -/
structure LiveRange where
  varName : String
  start : Nat
  stop : Nat
deriving Repr, DecidableEq

/-- The register file exposed to the allocator (LinearScanner.__init__):
b, c, d, e, h, l.  The accumulator a is not in the list. -/
def registers : List String := ["b", "c", "d", "e", "h", "l"]

/-- The number of registers the compiler pipeline hands to the allocator:
compiler.register_allocation (src/compiler.py lines 193-207) defaults its
num_registers parameter to 4 and main passes no other value, so
RegisterAllocator and LinearScanner run with num_registers = 4. -/
def registerAllocationNumRegisters : Nat := 4

/-- An entry of the scanner's active list: a live range together with the
register currently assigned to it. -/
abbrev ActiveEntry := LiveRange × String

/-- Dictionary lookup in an allocation map. -/
def allocFind (alloc : List (String × String)) (k : String) : Option String :=
  (alloc.find? (fun p => p.1 = k)).map (·.2)

/-- Dictionary assignment in an allocation map (shadows any previous
binding for the key). -/
def allocSet (alloc : List (String × String)) (k v : String) :
    List (String × String) :=
  (k, v) :: alloc.eraseP (fun p => p.1 = k)

/-- The scanner's mutable state during linear_scan: the active list, the
allocation dictionary and the spill-slot counter. -/
structure ScanState where
  active : List ActiveEntry
  alloc : List (String × String)
  spillCounter : Nat
deriving Repr, DecidableEq

/-- LinearScanner.expire_old_intervals (lines 204-217): remove every active
entry whose end is strictly before the position; the in-place index loop
removes exactly those entries and keeps the order of the rest. -/
def expireOldIntervals (position : Nat) (active : List ActiveEntry) :
    List ActiveEntry :=
  active.filter (fun e => !(e.1.stop < position))

/-- LinearScanner.get_free_register (lines 252-265): the first register of
the file not held by an active entry; none models the RuntimeError raised
when every register is taken. -/
def getFreeRegister (active : List ActiveEntry) : Option String :=
  registers.find? (fun r => !(active.map (·.2)).contains r)

/-- LinearScanner.get_spill_location (lines 267-276): the slot for the
current counter value; the counter then increments by 1. -/
def getSpillLocation (counter : Nat) : String :=
  "[sp+" ++ toString counter ++ "]"

/-- Stable insertion into a list sorted by range end, matching the stable
sort the source applies to the active list. -/
def insertByStop (e : ActiveEntry) : List ActiveEntry → List ActiveEntry
  | [] => [e]
  | f :: rest =>
    if e.1.stop ≤ f.1.stop then e :: f :: rest else f :: insertByStop e rest

/-- Stable sort of the active list by range end (`self.active.sort(key=
lambda lr: lr.end)`; Python's sort is stable, and so is this one). -/
def sortByStop : List ActiveEntry → List ActiveEntry
  | [] => []
  | e :: rest => insertByStop e (sortByStop rest)

/-- LinearScanner.handle_spill (lines 219-250), called with the already
expired active list.  The candidate is the last active entry (the one with
the furthest end point).  If it ends strictly later than the new range, the
new range takes its register and the candidate moves to a fresh spill slot;
otherwise the new range itself gets the fresh slot.  The error models the
IndexError raised when the active list is empty. -/
def handleSpill (st : ScanState) (lr : LiveRange) : Except String ScanState :=
  match st.active.getLast? with
  | none => .error "list index out of range"
  | some cand =>
    if lr.stop < cand.1.stop then
      let spillLoc := getSpillLocation st.spillCounter
      .ok { active := sortByStop (st.active.dropLast ++ [(lr, cand.2)])
          , alloc := allocSet (allocSet st.alloc lr.varName cand.2) cand.1.varName spillLoc
          , spillCounter := st.spillCounter + 1 }
    else
      let spillLoc := getSpillLocation st.spillCounter
      .ok { active := st.active
          , alloc := allocSet st.alloc lr.varName spillLoc
          , spillCounter := st.spillCounter + 1 }

/-- One iteration of LinearScanner.linear_scan's loop (lines 181-202):
expire, then either spill (when at least num_registers entries are active)
or assign a free register and insert into the active list kept sorted by
end point. -/
def scanStep (numRegisters : Nat) (st : ScanState) (lr : LiveRange) :
    Except String ScanState :=
  let active := expireOldIntervals lr.start st.active
  if numRegisters ≤ active.length then
    handleSpill { st with active := active } lr
  else
    match getFreeRegister active with
    | none => .error "No free registers found"
    | some reg =>
      .ok { active := sortByStop (active ++ [(lr, reg)])
          , alloc := allocSet st.alloc lr.varName reg
          , spillCounter := st.spillCounter }

/-- LinearScanner.linear_scan over a list of live ranges (already sorted by
start point by allocate_procedure). -/
def linearScan (numRegisters : Nat) (st : ScanState) :
    List LiveRange → Except String ScanState
  | [] => .ok st
  | lr :: rest => do
    let st1 ← scanStep numRegisters st lr
    linearScan numRegisters st1 rest

/-- The empty scan state allocate_procedure starts a procedure with
(before parameter pinning; the claims below concern non-parameter
ranges). -/
def initialScanState : ScanState := { active := [], alloc := [], spillCounter := 0 }

/-! ## IR rewriter (src/IRRewriter.py) -/

/-- IRRewriter._is_register in its default form (no is_register function is
installed by RegisterAllocator): membership in the seven register names,
including the accumulator a. -/
def rewriterIsRegister (alloc : String) : Bool :=
  ["a", "b", "c", "d", "e", "h", "l"].contains alloc

/-- The characters following the first occurrence of the slot opener, or
none when the opener does not occur (the source's containment test plus
split). -/
def afterSlotOpener : List Char → Option (List Char)
  | '[' :: 's' :: 'p' :: '+' :: rest => some rest
  | _ :: rest => afterSlotOpener rest
  | [] => none

/-- The characters before the first closing bracket (the source's second
split). -/
def beforeCloser : List Char → List Char
  | ']' :: _ => []
  | c :: rest => c :: beforeCloser rest
  | [] => []

/-- int() on a decimal digit run; non-digit text makes int() raise in the
source and parses to none here (such values never reach the rewriter). -/
def digitsToNat (cs : List Char) : Option Nat :=
  if cs ≠ [] ∧ cs.all Char.isDigit then
    some (cs.foldl (fun a c => a * 10 + (c.toNat - 48)) 0)
  else none

/-- The offset parsed out of a spill allocation: the source takes the text
after the first occurrence of the slot opener and before the following
closing bracket and converts it with int(). -/
def spillOffset (alloc : String) : Option Nat :=
  match afterSlotOpener alloc.toList with
  | some rest => digitsToNat (beforeCloser rest)
  | none => none

/-- The byte count both _generate_prologue and _generate_epilogue compute:
the maximum over all spilled allocations of offset + 2. -/
def spillCount (alloc : List (String × String)) : Nat :=
  alloc.foldl
    (fun acc p =>
      if !rewriterIsRegister p.2 then
        match spillOffset p.2 with
        | some off => max acc (off + 2)
        | none => acc
      else acc)
    0

/-- The gate of rewrite_instructions: any allocation that is not a
register. -/
def hasSpillAlloc (alloc : List (String × String)) : Bool :=
  alloc.any (fun p => !rewriterIsRegister p.2)

/-- IRRewriter._generate_prologue (lines 686-707): a labelled stack-pointer
decrease by the spill byte count, or nothing when the count is zero. -/
def generatePrologue (procName : String) (alloc : List (String × String)) :
    List IRInstr :=
  let n := spillCount alloc
  if 0 < n then
    [.label (procName ++ "_prologue"), .binaryOp "-" "sp" "sp" (toString n)]
  else []

/-- IRRewriter._generate_epilogue (lines 709-728): the matching
stack-pointer increase. -/
def generateEpilogue (procName : String) (alloc : List (String × String)) :
    List IRInstr :=
  let n := spillCount alloc
  if 0 < n then
    [.label (procName ++ "_epilogue"), .binaryOp "+" "sp" "sp" (toString n)]
  else []

/-- The repeated operand pattern of the _rewrite methods: an operand whose
allocation is a spill slot is first loaded into the given scratch register
and replaced by it; a register allocation replaces the operand; an operand
with no allocation stays as written. -/
def resolveOperand (alloc : List (String × String)) (name tempReg : String) :
    List IRInstr × String :=
  match allocFind alloc name with
  | some a => if !rewriterIsRegister a then ([.load tempReg a], tempReg) else ([], a)
  | none => ([], name)

/-- IRRewriter._rewrite_instruction dispatched over the instruction set,
following each _rewrite method of src/IRRewriter.py (lines 136-664) with
its scratch-register choices.  Labels, jumps and hardware memory copies are
returned unchanged. -/
def rewriteInstr (alloc : List (String × String)) : IRInstr → List IRInstr
  | .assign dest src =>
    let (srcLoads, srcName) := resolveOperand alloc src "a"
    (match allocFind alloc dest with
     | some d =>
       if rewriterIsRegister d then srcLoads ++ [.assign d srcName]
       else
         let tempReg := if srcName ≠ "a" then "a" else "b"
         srcLoads ++ (if srcName ≠ tempReg then [.assign tempReg srcName] else [])
           ++ [.store d tempReg]
     | none => srcLoads ++ [.assign dest src])
  | .binaryOp op dest left right =>
    let (lLoads, lName) := resolveOperand alloc left "a"
    let (rLoads, rName) := resolveOperand alloc right "b"
    lLoads ++ rLoads ++
      (match allocFind alloc dest with
       | some d =>
         if rewriterIsRegister d then [.binaryOp op d lName rName]
         else [.binaryOp op "c" lName rName, .store d "c"]
       | none => [.binaryOp op dest left right])
  | .unaryOp op dest operand =>
    let (oLoads, oName) := resolveOperand alloc operand "a"
    oLoads ++
      (match allocFind alloc dest with
       | some d =>
         if rewriterIsRegister d then [.unaryOp op d oName]
         else [.unaryOp op "b" oName, .store d "b"]
       | none => [.unaryOp op dest operand])
  | .constant dest value =>
    (match allocFind alloc dest with
     | some d =>
       if rewriterIsRegister d then [.constant d value]
       else [.constant "a" value, .store d "a"]
     | none => [.constant dest value])
  | .load dest addr =>
    let (aLoads, aName) := resolveOperand alloc addr "b"
    aLoads ++
      (match allocFind alloc dest with
       | some d =>
         if rewriterIsRegister d then [.load d aName]
         else [.load "a" aName, .store d "a"]
       | none => [.load dest addr])
  | .store addr value =>
    let (aLoads, aName) := resolveOperand alloc addr "b"
    let (vLoads, vName) := resolveOperand alloc value "a"
    aLoads ++ vLoads ++ [.store aName vName]
  | .indexedLoad dest base index =>
    let (bLoads, bName) := resolveOperand alloc base "b"
    let (iLoads, iName) := resolveOperand alloc index "c"
    bLoads ++ iLoads ++
      (match allocFind alloc dest with
       | some d =>
         if rewriterIsRegister d then [.indexedLoad d bName iName]
         else [.indexedLoad "a" bName iName, .store d "a"]
       | none => [.indexedLoad dest base index])
  | .indexedStore base index value =>
    let (bLoads, bName) := resolveOperand alloc base "b"
    let (iLoads, iName) := resolveOperand alloc index "c"
    let (vLoads, vName) := resolveOperand alloc value "a"
    bLoads ++ iLoads ++ vLoads ++ [.indexedStore bName iName vName]
  | .condJump condition trueLabel falseLabel =>
    let (cLoads, cName) := resolveOperand alloc condition "a"
    cLoads ++ [.condJump cName trueLabel falseLabel]
  | .call procName args dest =>
    let step := fun (acc : List IRInstr × List String) arg =>
      match allocFind alloc arg with
      | some a =>
        if !rewriterIsRegister a then (acc.1 ++ [.load "a" a], acc.2 ++ ["a"])
        else (acc.1, acc.2 ++ [a])
      | none => (acc.1, acc.2 ++ [arg])
    let (argLoads, newArgs) := args.foldl step ([], [])
    (match dest with
     | some d =>
       (match allocFind alloc d with
        | some da =>
          if rewriterIsRegister da then argLoads ++ [.call procName newArgs (some da)]
          else argLoads ++ [.call procName newArgs (some "a"), .store da "a"]
        | none => argLoads ++ [.call procName newArgs dest])
     | none => argLoads ++ [.call procName newArgs dest])
  | .ret value =>
    (match value with
     | some v =>
       (match allocFind alloc v with
        | some va =>
          if !rewriterIsRegister va then [.load "a" va, .ret (some "a")]
          else [.ret (some va)]
        | none => [.ret (some v)])
     | none => [.ret none])
  | .hardwareCall moduleName functionName args =>
    let step := fun (acc : List IRInstr × List String) arg =>
      match allocFind alloc arg with
      | some a =>
        if !rewriterIsRegister a then (acc.1 ++ [.load "a" a], acc.2 ++ ["a"])
        else (acc.1, acc.2 ++ [a])
      | none => (acc.1, acc.2 ++ [arg])
    let (argLoads, newArgs) := args.foldl step ([], [])
    argLoads ++ [.hardwareCall moduleName functionName newArgs]
  | .hardwareRead dest register =>
    (match allocFind alloc dest with
     | some d =>
       if rewriterIsRegister d then [.hardwareRead d register]
       else [.hardwareRead "a" register, .store d "a"]
     | none => [.hardwareRead dest register])
  | .hardwareWrite register value =>
    (match allocFind alloc value with
     | some va =>
       if !rewriterIsRegister va then [.load "a" va, .hardwareWrite register "a"]
       else [.hardwareWrite register va]
     | none => [.hardwareWrite register value])
  | .hardwareIndexedRead dest register index =>
    let (iLoads, iName) := resolveOperand alloc index "b"
    iLoads ++
      (match allocFind alloc dest with
       | some d =>
         if rewriterIsRegister d then [.hardwareIndexedRead d register iName]
         else [.hardwareIndexedRead "a" register iName, .store d "a"]
       | none => [.hardwareIndexedRead dest register index])
  | .hardwareIndexedWrite register index value =>
    let (iLoads, iName) := resolveOperand alloc index "b"
    let (vLoads, vName) := resolveOperand alloc value "a"
    iLoads ++ vLoads ++ [.hardwareIndexedWrite register iName vName]
  | .label name => [.label name]
  | .jump labelName => [.jump labelName]
  | .argLoad dest argIndex =>
    (match allocFind alloc dest with
     | some d =>
       if rewriterIsRegister d then [.argLoad d argIndex]
       else [.argLoad "a" argIndex, .store d "a"]
     | none => [.argLoad dest argIndex])
  | .hardwareMemCpy dest src size => [.hardwareMemCpy dest src size]

/-- IRRewriter.rewrite_instructions (lines 90-115): when any allocation is
a spill, the prologue is placed before the rewritten instructions and the
epilogue is appended once after all of them. -/
def rewriteInstructions (procName : String) (alloc : List (String × String))
    (instrs : List IRInstr) : List IRInstr :=
  (if hasSpillAlloc alloc then generatePrologue procName alloc else []) ++
    instrs.flatMap (rewriteInstr alloc) ++
    (if hasSpillAlloc alloc then generateEpilogue procName alloc else [])

/-! ## Claims about the type checker -/

/-- C1: the claim states that a BinaryOp with operands that are not both
int (or a UnaryOp with a non-int operand) makes type checking fail with a
fatal type-mismatch error.  The code logs the operand error but omits the
raise present everywhere else in the checker (and present for the same
inputs in the earlier revision src/asttype_checker.py), so checking the
node succeeds and still yields int.  This theorem evaluates the checker at
the failing inputs: a string + int addition and a unary minus on a string
both check successfully with result int (no error), and the all-int case
yields int as claimed. -/
theorem c1_mismatch_not_fatal :
    checkExpr initialState (.binaryOp "+" (.stringLit "s") (.integerLit 1)) = .ok .intT ∧
    checkExpr initialState (.unaryOp "-" (.stringLit "s")) = .ok .intT ∧
    checkExpr initialState (.binaryOp "+" (.integerLit 2) (.integerLit 1)) = .ok .intT := by
  refine ⟨rfl, rfl, rfl⟩

/-- C2 counterexample: the procedure call control.LCDon(), whose name node
is the AttributeAccess the AST generator builds, is looked up under the
dotted name control.LCDon — not the flat control_LCDon the hardware table
registers — so the type checker rejects it as an undeclared procedure,
refuting the claim that the call resolves and type checking succeeds. -/
theorem c2_counterexample :
    checkExpr initialState
        (.procedureCall (.attrN (.varN (.strN "control")) "LCDon") .nil) =
      .error (.undeclaredVariable "control.LCDon") := by
  rfl

/-- C2 (amended): for every call written with module syntax module.fn(...),
get_procedure_name joins the pieces with a dot, producing module.fn rather
than the flat module_fn; whenever that dotted name is not a key of the
procedure table the call fails with an undeclared-procedure error.  A call
written with the flat name control_LCDon() does resolve against the
pre-registered hardware procedure. -/
theorem c2_dotted_name_lookup (m f : String) :
    getProcedureNameAux (.attrN (.varN (.strN m)) f) = m ++ "." ++ f ∧
    (procsLookup initialState.procs (m ++ "." ++ f) = none →
      checkExpr initialState (.procedureCall (.attrN (.varN (.strN m)) f) .nil) =
        .error (.undeclaredVariable (m ++ "." ++ f))) ∧
    checkExpr initialState (.procedureCall (.strN "control_LCDon") .nil) = .ok .voidT := by
  refine ⟨rfl, ?_, rfl⟩
  intro h
  simp only [checkExpr, getProcedureNameAux, h]

/-- C2 witness: the amended statement applied to the concrete hardware call
control.LCDon(). -/
theorem c2_dotted_name_lookup_witness :
    checkExpr initialState
        (.procedureCall (.attrN (.varN (.strN "control")) "LCDon") .nil) =
      .error (.undeclaredVariable ("control" ++ "." ++ "LCDon")) :=
  (c2_dotted_name_lookup "control" "LCDon").2.1 (by decide)

/-- C3 counterexample: a program whose first statement calls foo() and
whose second statement defines foo.  The claim says the procedure table is
filled in a pre-pass so the call does not fail; in fact check_program has
no pre-pass and the call fails with an undeclared-procedure error. -/
theorem c3_counterexample :
    checkProgram
        (.cons (.procedureCallStmt (.procedureCall (.strN "foo") .nil))
          (.cons (.procedureDef none "foo" [] .nil) .nil)) =
      .error (.undeclaredVariable "foo") := by
  rfl

/-- C3 (amended): the procedure table is populated incrementally during the
single checking pass — a user procedure is registered only when its
ProcedureDef is checked.  A call placed after the definition succeeds,
while a call that textually precedes the definition fails with an
undeclared-procedure error even though the definition exists later in the
program. -/
theorem c3_incremental_procedure_table :
    (checkProgram
        (.cons (.procedureDef none "foo" [] .nil)
          (.cons (.procedureCallStmt (.procedureCall (.strN "foo") .nil)) .nil))).isOk = true ∧
    checkProgram
        (.cons (.procedureCallStmt (.procedureCall (.strN "foo") .nil))
          (.cons (.procedureDef none "foo" [] .nil) .nil)) =
      .error (.undeclaredVariable "foo") := by
  refine ⟨rfl, rfl⟩

/-- C4 counterexample: `int x;` followed by a Conditional whose body
declares x again.  The claim says the body is checked in a fresh nested
scope, so the inner declaration shadows and is accepted; in fact
check_Conditional pushes no scope and the checker reports a duplicate
declaration. -/
theorem c4_counterexample :
    checkProgram
        (.cons (.declaration "x" "int")
          (.cons (.conditional (.integerLit 1)
            (.cons (.declaration "x" "int") .nil) .nil) .nil)) =
      .error (.duplicateDeclaration "x") := by
  rfl

/-- C4 (amended): Conditional and Loop bodies are type checked in the same
scope as the surrounding statement — no nested scope is pushed.  A
declaration inside the body of a name already present in the current scope
is rejected as a duplicate (for Conditional and for Loop alike), and a
declaration made inside the body remains visible after the statement, as
the assignment following the conditional shows. -/
theorem c4_same_scope_bodies :
    checkProgram
        (.cons (.declaration "x" "int")
          (.cons (.conditional (.integerLit 1)
            (.cons (.declaration "x" "int") .nil) .nil) .nil)) =
      .error (.duplicateDeclaration "x") ∧
    checkProgram
        (.cons (.declaration "y" "int")
          (.cons (.loop (.integerLit 1)
            (.cons (.declaration "y" "int") .nil)) .nil)) =
      .error (.duplicateDeclaration "y") ∧
    (checkProgram
        (.cons (.conditional (.integerLit 1)
            (.cons (.declaration "z" "int") .nil) .nil)
          (.cons (.assignment (.var "z") (.integerLit 1)) .nil))).isOk = true := by
  refine ⟨rfl, rfl, rfl⟩

/-! ## Claims about the code generator header -/

/-- C6 counterexample: no line of the fixed header region mentions
PenguinEntry or the address $DFFF at all; the entry label the header
defines is EntryPoint and the stack pointer is set to $FFFE.  This refutes
the claim that the generated assembly contains a PenguinEntry label
initialising the stack pointer to $DFFF. -/
theorem c6_counterexample :
    emitHeader.all (fun line => !containsSub line "PenguinEntry") = true ∧
    emitHeader.all (fun line => !containsSub line "$DFFF") = true ∧
    emitFooter.all (fun line => !containsSub line "PenguinEntry") = true ∧
    emitFooter.all (fun line => !containsSub line "$DFFF") = true := by
  refine ⟨rfl, rfl, rfl, rfl⟩

/-- C6 (amended): the emitted header's program entry label is EntryPoint;
it disables interrupts and initialises the stack pointer to $FFFE, then
calls Main, before any program code is emitted (the header is the first
region of the output). -/
theorem c6_entrypoint_header :
    emitHeader.get? 6 = some "\nEntryPoint:" ∧
    emitHeader.get? 8 = some "    ld sp, $FFFE  ; Set stack pointer" ∧
    emitHeader.get? 9 = some "    call Main" ∧
    emitHeader.length = 11 := by
  refine ⟨rfl, rfl, rfl, rfl⟩

/-! ## Linear-scan supporting lemmas -/

/-- Inserting by end point is a permutation of consing. -/
theorem insertByStop_perm (e : ActiveEntry) (l : List ActiveEntry) :
    List.Perm (insertByStop e l) (e :: l) := by
  induction l with
  | nil => simp [insertByStop]
  | cons f rest ih =>
    unfold insertByStop
    split
    · exact List.Perm.refl _
    · exact (ih.cons f).trans (List.Perm.swap e f rest)

/-- Sorting by end point permutes the list. -/
theorem sortByStop_perm (l : List ActiveEntry) : List.Perm (sortByStop l) l := by
  induction l with
  | nil => simp [sortByStop]
  | cons e rest ih =>
    exact (insertByStop_perm e (sortByStop rest)).trans (ih.cons e)

/-- Membership in an insertion. -/
theorem mem_insertByStop {x e : ActiveEntry} {l : List ActiveEntry} :
    x ∈ insertByStop e l ↔ x = e ∨ x ∈ l := by
  rw [(insertByStop_perm e l).mem_iff, List.mem_cons]

/-- Membership in the sorted list. -/
theorem mem_sortByStop {x : ActiveEntry} {l : List ActiveEntry} :
    x ∈ sortByStop l ↔ x ∈ l :=
  (sortByStop_perm l).mem_iff

/-- Inserting into a list sorted by end point keeps it sorted. -/
theorem insertByStop_sorted (e : ActiveEntry) (l : List ActiveEntry)
    (h : l.Pairwise (fun a b => a.1.stop ≤ b.1.stop)) :
    (insertByStop e l).Pairwise (fun a b => a.1.stop ≤ b.1.stop) := by
  induction l with
  | nil => simp [insertByStop]
  | cons f rest ih =>
    rw [List.pairwise_cons] at h
    unfold insertByStop
    split
    · rename_i hle
      rw [List.pairwise_cons]
      refine ⟨?_, List.pairwise_cons.mpr h⟩
      intro x hx
      rcases List.mem_cons.mp hx with hx | hx
      · exact hx ▸ hle
      · exact le_trans hle (h.1 x hx)
    · rename_i hgt
      rw [List.pairwise_cons]
      refine ⟨?_, ih h.2⟩
      intro x hx
      rcases mem_insertByStop.mp hx with hx | hx
      · exact hx ▸ le_of_not_le hgt
      · exact h.1 x hx

/-- Sorting by end point sorts. -/
theorem sortByStop_sorted (l : List ActiveEntry) :
    (sortByStop l).Pairwise (fun a b => a.1.stop ≤ b.1.stop) := by
  induction l with
  | nil => simp [sortByStop]
  | cons e rest ih => exact insertByStop_sorted e (sortByStop rest) ih

/-- The last element of a list is a member. -/
theorem getLast?_mem_list {l : List ActiveEntry} {cand : ActiveEntry}
    (h : l.getLast? = some cand) : cand ∈ l := by
  have hm : cand ∈ l.getLast? := by rw [Option.mem_def, h]
  rcases List.mem_getLast?_eq_getLast hm with ⟨hne, heq⟩
  exact heq ▸ List.getLast_mem hne

/-- In a list sorted by end point, the last element has the largest end. -/
theorem sorted_getLast_max :
    ∀ (l : List ActiveEntry),
      l.Pairwise (fun a b => a.1.stop ≤ b.1.stop) →
      ∀ (cand : ActiveEntry), l.getLast? = some cand →
      ∀ e ∈ l, e.1.stop ≤ cand.1.stop
  | [], _, cand, hl => by cases hl
  | [a], _, cand, hl => by
    have ha : a = cand := by simpa [List.getLast?] using hl
    intro e he
    rcases List.mem_cons.mp he with he | he
    · exact (he.trans ha) ▸ le_refl _
    · cases he
  | a :: b :: rest2, h, cand, hl => by
    rw [List.pairwise_cons] at h
    have hl2 : (b :: rest2).getLast? = some cand := by
      rw [List.getLast?_cons_cons] at hl
      exact hl
    have hcm : cand ∈ b :: rest2 := getLast?_mem_list hl2
    intro e he
    rcases List.mem_cons.mp he with he | he
    · exact he ▸ h.1 cand hcm
    · exact sorted_getLast_max (b :: rest2) h.2 cand hl2 e he

/-- Members of a list whose image is duplicate-free and whose images agree
are equal. -/
theorem nodup_map_inj {α β : Type} (f : α → β) (l : List α)
    (h : (l.map f).Nodup) :
    ∀ a ∈ l, ∀ b ∈ l, f a = f b → a = b := by
  induction l with
  | nil => intro a ha; cases ha
  | cons x xs ih =>
    rw [List.map_cons, List.nodup_cons] at h
    intro a ha b hb hf
    rcases List.mem_cons.mp ha with ha | ha <;> rcases List.mem_cons.mp hb with hb | hb
    · exact ha.trans hb.symm
    · exact absurd (List.mem_map.mpr ⟨b, hb, (ha ▸ hf).symm⟩) h.1
    · exact absurd (List.mem_map.mpr ⟨a, ha, hb ▸ hf⟩) h.1
    · exact ih h.2 a ha b hb hf

/-- The length of a spill slot token. -/
theorem getSpillLocation_length (k : Nat) :
    (getSpillLocation k).length = 4 + (toString k).length + 1 := by
  show ("[sp+" ++ toString k ++ "]").length = _
  rw [String.length_append, String.length_append]
  have e1 : "[sp+".length = 4 := rfl
  have e2 : "]".length = 1 := rfl
  omega

/-- A spill slot token is never one of the six registers. -/
theorem getSpillLocation_not_register (k : Nat) :
    getSpillLocation k ∉ registers := by
  intro h
  have h1 := getSpillLocation_length k
  have h2 : ∀ s ∈ registers, s.length = 1 := by decide
  have h3 := h2 _ h
  omega

/-- A spill slot token is never the accumulator name. -/
theorem getSpillLocation_ne_a (k : Nat) : getSpillLocation k ≠ "a" := by
  intro h
  have h1 := getSpillLocation_length k
  rw [h] at h1
  have e3 : ("a" : String).length = 1 := rfl
  omega

/-- When every active register is one of the six, they are all distinct and
fewer than six are active, a free register exists; it is drawn from the
register file and is held by no active entry. -/
theorem getFreeRegister_is_some (active : List ActiveEntry)
    (hlen : active.length < 6) :
    ∃ r, getFreeRegister active = some r ∧ r ∈ registers ∧
      r ∉ active.map (·.2) := by
  rcases hfind : getFreeRegister active with _ | r
  · exfalso
    have hall := List.find?_eq_none.mp hfind
    have hsubset : registers ⊆ active.map (·.2) := by
      intro r hr
      have hc := hall r hr
      simp only [Bool.not_eq_true, Bool.not_eq_false] at hc
      simpa using hc
    have hcard : (registers.toFinset : Finset String) ⊆ (active.map (·.2)).toFinset := by
      intro r hr
      rw [List.mem_toFinset] at hr ⊢
      exact hsubset hr
    have h6 : (registers.toFinset : Finset String).card = 6 := by decide
    have hle := Finset.card_le_card hcard
    have hle2 := List.toFinset_card_le (active.map (·.2))
    rw [h6] at hle
    rw [List.length_map] at hle2
    omega
  · refine ⟨r, rfl, List.mem_of_find?_eq_some hfind, ?_⟩
    have hp := List.find?_some hfind
    simp only [Bool.not_eq_true'] at hp
    intro hm
    have : (active.map (·.2)).contains r = true := by simpa using hm
    rw [this] at hp
    cases hp

/-- Lookup after an assignment to the same key. -/
theorem allocFind_set_self (a : List (String × String)) (k v : String) :
    allocFind (allocSet a k v) k = some v := by
  simp [allocFind, allocSet, List.find?_cons]

/-- A key erased in an association list does not disturb the lookup of a
different key. -/
theorem find_eraseP_ne (a : List (String × String)) (k k2 : String) (h : k2 ≠ k) :
    (a.eraseP (fun p => p.1 = k)).find? (fun p => p.1 = k2) =
      a.find? (fun p => p.1 = k2) := by
  induction a with
  | nil => simp
  | cons x xs ih =>
    by_cases hx : x.1 = k
    · rw [List.eraseP_cons_of_pos (by simp [hx])]
      rw [List.find?_cons_of_neg _ (by simp [hx]; exact fun hh => h hh.symm)]
    · rw [List.eraseP_cons_of_neg (by simp [hx])]
      by_cases hx2 : x.1 = k2
      · rw [List.find?_cons_of_pos _ (by simp [hx2]),
          List.find?_cons_of_pos _ (by simp [hx2])]
      · rw [List.find?_cons_of_neg _ (by simp [hx2]),
          List.find?_cons_of_neg _ (by simp [hx2])]
        exact ih

/-- Lookup after an assignment to a different key. -/
theorem allocFind_set_ne (a : List (String × String)) (k v k2 : String)
    (h : k2 ≠ k) :
    allocFind (allocSet a k v) k2 = allocFind a k2 := by
  unfold allocFind allocSet
  rw [List.find?_cons_of_neg _ (by simp; exact fun hh => h hh.symm)]
  rw [find_eraseP_ne a k k2 h]

/-- Membership in the expired active list. -/
theorem mem_expire {e : ActiveEntry} {p : Nat} {active : List ActiveEntry} :
    e ∈ expireOldIntervals p active ↔ e ∈ active ∧ ¬(e.1.stop < p) := by
  simp [expireOldIntervals, List.mem_filter]

/-- Expiry is a sublist operation. -/
theorem expire_sublist (p : Nat) (active : List ActiveEntry) :
    (expireOldIntervals p active).Sublist active :=
  List.filter_sublist active

/-- The scan invariant: after processing `processed` (whose starts are all
at most `pos`), the active list holds pairwise distinct registers drawn
from the register file, one entry per variable, sorted by end point and
consistent with the allocation map; a processed range whose allocation is
still a register either ended before `pos` or is still active; two
overlapping processed ranges never share a register in the allocation map;
and every allocated value is a register or a spill slot. -/
structure ScanInv (processed : List LiveRange) (pos : Nat) (st : ScanState) : Prop where
  regsNodup : (st.active.map (·.2)).Nodup
  regsMem : ∀ e ∈ st.active, e.2 ∈ registers
  varsNodup : (st.active.map (·.1.varName)).Nodup
  allocActive : ∀ e ∈ st.active, allocFind st.alloc e.1.varName = some e.2
  sorted : st.active.Pairwise (fun a b => a.1.stop ≤ b.1.stop)
  activeProcessed : ∀ e ∈ st.active, e.1 ∈ processed
  regStillActive : ∀ r ∈ processed, ∀ R, allocFind st.alloc r.varName = some R →
      R ∈ registers → r.stop < pos ∨ (r, R) ∈ st.active
  noShare : ∀ r ∈ processed, ∀ r2 ∈ processed, r.varName ≠ r2.varName →
      r.start ≤ r2.stop → r2.start ≤ r.stop →
      ∀ R, allocFind st.alloc r.varName = some R →
        allocFind st.alloc r2.varName = some R → R ∉ registers
  allocShape : ∀ r ∈ processed, ∀ s, allocFind st.alloc r.varName = some s →
      s ∈ registers ∨ ∃ k, s = getSpillLocation k
  startsLe : ∀ r ∈ processed, r.start ≤ pos

/-- Preservation of the scan invariant by the free-register branch of the
scan step. -/
theorem scanInv_free (processed : List LiveRange) (pos : Nat) (st : ScanState)
    (lr : LiveRange) (reg : String)
    (inv : ScanInv processed pos st)
    (hfresh : lr.varName ∉ processed.map (·.varName))
    (hpos : pos ≤ lr.start)
    (hreg : getFreeRegister (expireOldIntervals lr.start st.active) = some reg) :
    ScanInv (processed ++ [lr]) lr.start
      { active := sortByStop (expireOldIntervals lr.start st.active ++ [(lr, reg)])
      , alloc := allocSet st.alloc lr.varName reg
      , spillCounter := st.spillCounter } := by
  set A := expireOldIntervals lr.start st.active with hAdef
  have hA_sub : A.Sublist st.active := expire_sublist lr.start st.active
  have hA_regs_nd : (A.map (·.2)).Nodup := inv.regsNodup.sublist (hA_sub.map (·.2))
  have hA_vars_nd : (A.map (·.1.varName)).Nodup :=
    inv.varsNodup.sublist (hA_sub.map (·.1.varName))
  have hA_sorted : A.Pairwise (fun a b => a.1.stop ≤ b.1.stop) :=
    inv.sorted.sublist hA_sub
  have hA_mem : ∀ e ∈ A, e ∈ st.active := fun e he => hA_sub.mem he
  have hreg_in : reg ∈ registers := List.mem_of_find?_eq_some hreg
  have hreg_free : reg ∉ A.map (·.2) := by
    have hp := List.find?_some hreg
    simp only [Bool.not_eq_true'] at hp
    intro hm
    have hmc : (A.map (·.2)).contains reg = true := by simpa using hm
    rw [hmc] at hp
    cases hp
  have hne_old : ∀ r ∈ processed, r.varName ≠ lr.varName := by
    intro r hr heq
    exact hfresh (List.mem_map.mpr ⟨r, hr, heq⟩)
  have hmem_act : ∀ x, x ∈ sortByStop (A ++ [(lr, reg)]) ↔ x ∈ A ∨ x = (lr, reg) := by
    intro x
    rw [mem_sortByStop, List.mem_append, List.mem_singleton]
  have hfind_old : ∀ r ∈ processed,
      allocFind (allocSet st.alloc lr.varName reg) r.varName = allocFind st.alloc r.varName := by
    intro r hr
    exact allocFind_set_ne st.alloc lr.varName reg r.varName (hne_old r hr)
  refine ⟨?_, ?_, ?_, ?_, ?_, ?_, ?_, ?_, ?_, ?_⟩
  · -- registers pairwise distinct
    have hperm := (sortByStop_perm (A ++ [(lr, reg)])).map (·.2)
    rw [List.Perm.nodup_iff hperm, List.map_append]
    rw [List.nodup_append]
    refine ⟨hA_regs_nd, by simp, ?_⟩
    intro x hx
    simp only [List.map_cons, List.map_nil, List.mem_singleton]
    intro hx2
    exact hreg_free (hx2 ▸ hx)
  · -- registers drawn from the file
    intro e he
    rcases (hmem_act e).mp he with he | he
    · exact inv.regsMem e (hA_mem e he)
    · rw [he]; exact hreg_in
  · -- variables pairwise distinct
    have hperm := (sortByStop_perm (A ++ [(lr, reg)])).map (·.1.varName)
    rw [List.Perm.nodup_iff hperm, List.map_append, List.nodup_append]
    refine ⟨hA_vars_nd, by simp, ?_⟩
    intro x hx
    simp only [List.map_cons, List.map_nil, List.mem_singleton]
    intro hx2
    rcases List.mem_map.mp hx with ⟨e, he, hxe⟩
    have : e.1 ∈ processed := inv.activeProcessed e (hA_mem e he)
    exact hne_old e.1 this (by rw [hxe, hx2])
  · -- allocation map agrees with the active list
    intro e he
    rcases (hmem_act e).mp he with he | he
    · have h1 : e.1 ∈ processed := inv.activeProcessed e (hA_mem e he)
      rw [allocFind_set_ne st.alloc lr.varName reg e.1.varName (hne_old e.1 h1)]
      exact inv.allocActive e (hA_mem e he)
    · rw [he]
      exact allocFind_set_self st.alloc lr.varName reg
  · -- sorted by end point
    exact sortByStop_sorted (A ++ [(lr, reg)])
  · -- active ranges are processed
    intro e he
    rcases (hmem_act e).mp he with he | he
    · exact List.mem_append_left _ (inv.activeProcessed e (hA_mem e he))
    · rw [he]
      exact List.mem_append_right _ (List.mem_singleton.mpr rfl)
  · -- register allocations are ended or still active
    intro r hr R hfnd hRreg
    rcases List.mem_append.mp hr with hr | hr
    · rw [hfind_old r hr] at hfnd
      rcases inv.regStillActive r hr R hfnd hRreg with hstop | hact
      · exact Or.inl (lt_of_lt_of_le hstop hpos)
      · by_cases hexp : r.stop < lr.start
        · exact Or.inl hexp
        · refine Or.inr ((hmem_act (r, R)).mpr (Or.inl ?_))
          exact mem_expire.mpr ⟨hact, hexp⟩
    · have hrl : r = lr := List.mem_singleton.mp hr
      subst hrl
      rw [allocFind_set_self] at hfnd
      refine Or.inr ((hmem_act (r, R)).mpr (Or.inr ?_))
      rw [(Option.some_inj.mp hfnd)]
  · -- overlapping ranges do not share a register
    intro r hr r2 hr2 hne hov1 hov2 R hfnd hfnd2
    intro hRreg
    rcases List.mem_append.mp hr with hro | hrn <;>
      rcases List.mem_append.mp hr2 with hr2o | hr2n
    · -- both old: the allocation lookups are unchanged
      rw [hfind_old r hro] at hfnd
      rw [hfind_old r2 hr2o] at hfnd2
      exact inv.noShare r hro r2 hr2o hne hov1 hov2 R hfnd hfnd2 hRreg
    · -- r old, r2 = lr
      have hr2l : r2 = lr := List.mem_singleton.mp hr2n
      subst hr2l
      rw [hfind_old r hro] at hfnd
      rw [allocFind_set_self] at hfnd2
      rcases inv.regStillActive r hro R hfnd hRreg with hstop | hact
      · omega
      · have hnexp : ¬(r.stop < r2.start) := by omega
        have hmemA : (r, R) ∈ A := mem_expire.mpr ⟨hact, hnexp⟩
        have hRmem : R ∈ A.map (·.2) := List.mem_map.mpr ⟨(r, R), hmemA, rfl⟩
        rw [← Option.some_inj.mp hfnd2] at hRmem
        exact hreg_free hRmem
    · -- r = lr, r2 old
      have hrl : r = lr := List.mem_singleton.mp hrn
      subst hrl
      rw [hfind_old r2 hr2o] at hfnd2
      rw [allocFind_set_self] at hfnd
      rcases inv.regStillActive r2 hr2o R hfnd2 hRreg with hstop | hact
      · omega
      · have hnexp : ¬(r2.stop < r.start) := by omega
        have hmemA : (r2, R) ∈ A := mem_expire.mpr ⟨hact, hnexp⟩
        have hRmem : R ∈ A.map (·.2) := List.mem_map.mpr ⟨(r2, R), hmemA, rfl⟩
        rw [← Option.some_inj.mp hfnd] at hRmem
        exact hreg_free hRmem
    · -- both new: impossible since the names differ
      have h1 : r = lr := List.mem_singleton.mp hrn
      have h2 : r2 = lr := List.mem_singleton.mp hr2n
      exact hne (by rw [h1, h2])
  · -- allocation values are registers or spill slots
    intro r hr s hfnd
    rcases List.mem_append.mp hr with hr | hr
    · rw [hfind_old r hr] at hfnd
      exact inv.allocShape r hr s hfnd
    · have hrl : r = lr := List.mem_singleton.mp hr
      subst hrl
      rw [allocFind_set_self] at hfnd
      exact Or.inl ((Option.some_inj.mp hfnd) ▸ hreg_in)
  · -- all processed starts are bounded by the new position
    intro r hr
    rcases List.mem_append.mp hr with hr | hr
    · exact le_trans (inv.startsLe r hr) hpos
    · exact (List.mem_singleton.mp hr) ▸ le_refl _

/-- Preservation of the scan invariant when the new range itself is
spilled (the latest-ending active range does not end later). -/
theorem scanInv_spillCurrent (processed : List LiveRange) (pos : Nat) (st : ScanState)
    (lr : LiveRange)
    (inv : ScanInv processed pos st)
    (hfresh : lr.varName ∉ processed.map (·.varName))
    (hpos : pos ≤ lr.start) :
    ScanInv (processed ++ [lr]) lr.start
      { active := expireOldIntervals lr.start st.active
      , alloc := allocSet st.alloc lr.varName (getSpillLocation st.spillCounter)
      , spillCounter := st.spillCounter + 1 } := by
  set A := expireOldIntervals lr.start st.active with hAdef
  set slot := getSpillLocation st.spillCounter with hslotdef
  have hA_sub : A.Sublist st.active := expire_sublist lr.start st.active
  have hA_mem : ∀ e ∈ A, e ∈ st.active := fun e he => hA_sub.mem he
  have hne_old : ∀ r ∈ processed, r.varName ≠ lr.varName := by
    intro r hr heq
    exact hfresh (List.mem_map.mpr ⟨r, hr, heq⟩)
  have hfind_old : ∀ r ∈ processed,
      allocFind (allocSet st.alloc lr.varName slot) r.varName = allocFind st.alloc r.varName := by
    intro r hr
    exact allocFind_set_ne st.alloc lr.varName slot r.varName (hne_old r hr)
  refine ⟨?_, ?_, ?_, ?_, ?_, ?_, ?_, ?_, ?_, ?_⟩
  · exact inv.regsNodup.sublist (hA_sub.map (·.2))
  · intro e he; exact inv.regsMem e (hA_mem e he)
  · exact inv.varsNodup.sublist (hA_sub.map (·.1.varName))
  · intro e he
    have h1 : e.1 ∈ processed := inv.activeProcessed e (hA_mem e he)
    rw [allocFind_set_ne st.alloc lr.varName slot e.1.varName (hne_old e.1 h1)]
    exact inv.allocActive e (hA_mem e he)
  · exact inv.sorted.sublist hA_sub
  · intro e he
    exact List.mem_append_left _ (inv.activeProcessed e (hA_mem e he))
  · intro r hr R hfnd hRreg
    rcases List.mem_append.mp hr with hr | hr
    · rw [hfind_old r hr] at hfnd
      rcases inv.regStillActive r hr R hfnd hRreg with hstop | hact
      · exact Or.inl (lt_of_lt_of_le hstop hpos)
      · by_cases hexp : r.stop < lr.start
        · exact Or.inl hexp
        · exact Or.inr (mem_expire.mpr ⟨hact, hexp⟩)
    · exfalso
      have hrl : r = lr := List.mem_singleton.mp hr
      subst hrl
      rw [allocFind_set_self] at hfnd
      rw [← Option.some_inj.mp hfnd] at hRreg
      exact getSpillLocation_not_register st.spillCounter hRreg
  · intro r hr r2 hr2 hne hov1 hov2 R hfnd hfnd2 hRreg
    rcases List.mem_append.mp hr with hro | hrn <;>
      rcases List.mem_append.mp hr2 with hr2o | hr2n
    · rw [hfind_old r hro] at hfnd
      rw [hfind_old r2 hr2o] at hfnd2
      exact inv.noShare r hro r2 hr2o hne hov1 hov2 R hfnd hfnd2 hRreg
    · have hr2l : r2 = lr := List.mem_singleton.mp hr2n
      subst hr2l
      rw [allocFind_set_self] at hfnd2
      rw [← Option.some_inj.mp hfnd2] at hRreg
      exact getSpillLocation_not_register st.spillCounter hRreg
    · have hrl : r = lr := List.mem_singleton.mp hrn
      subst hrl
      rw [allocFind_set_self] at hfnd
      rw [← Option.some_inj.mp hfnd] at hRreg
      exact getSpillLocation_not_register st.spillCounter hRreg
    · have h1 : r = lr := List.mem_singleton.mp hrn
      have h2 : r2 = lr := List.mem_singleton.mp hr2n
      exact hne (by rw [h1, h2])
  · intro r hr s hfnd
    rcases List.mem_append.mp hr with hr | hr
    · rw [hfind_old r hr] at hfnd
      exact inv.allocShape r hr s hfnd
    · have hrl : r = lr := List.mem_singleton.mp hr
      subst hrl
      rw [allocFind_set_self] at hfnd
      exact Or.inr ⟨st.spillCounter, (Option.some_inj.mp hfnd).symm⟩
  · intro r hr
    rcases List.mem_append.mp hr with hr | hr
    · exact le_trans (inv.startsLe r hr) hpos
    · exact (List.mem_singleton.mp hr) ▸ le_refl _

/-- Preservation of the scan invariant when the latest-ending active range
is spilled and the new range takes its register. -/
theorem scanInv_spillCand (processed : List LiveRange) (pos : Nat) (st : ScanState)
    (lr : LiveRange) (cand : ActiveEntry)
    (inv : ScanInv processed pos st)
    (hfresh : lr.varName ∉ processed.map (·.varName))
    (hpos : pos ≤ lr.start)
    (hlast : (expireOldIntervals lr.start st.active).getLast? = some cand) :
    ScanInv (processed ++ [lr]) lr.start
      { active := sortByStop ((expireOldIntervals lr.start st.active).dropLast ++ [(lr, cand.2)])
      , alloc := allocSet (allocSet st.alloc lr.varName cand.2) cand.1.varName
          (getSpillLocation st.spillCounter)
      , spillCounter := st.spillCounter + 1 } := by
  set A := expireOldIntervals lr.start st.active with hAdef
  set slot := getSpillLocation st.spillCounter with hslotdef
  have hA_sub : A.Sublist st.active := expire_sublist lr.start st.active
  have hA_mem : ∀ e ∈ A, e ∈ st.active := fun e he => hA_sub.mem he
  have hA_regs_nd : (A.map (·.2)).Nodup := inv.regsNodup.sublist (hA_sub.map (·.2))
  have hA_vars_nd : (A.map (·.1.varName)).Nodup :=
    inv.varsNodup.sublist (hA_sub.map (·.1.varName))
  have hcandA : cand ∈ A := getLast?_mem_list hlast
  have hcandProc : cand.1 ∈ processed := inv.activeProcessed cand (hA_mem cand hcandA)
  have hcandReg : cand.2 ∈ registers := inv.regsMem cand (hA_mem cand hcandA)
  have hne_old : ∀ r ∈ processed, r.varName ≠ lr.varName := by
    intro r hr heq
    exact hfresh (List.mem_map.mpr ⟨r, hr, heq⟩)
  have hcand_ne_lr : cand.1.varName ≠ lr.varName := hne_old cand.1 hcandProc
  have hAdecomp : A.dropLast ++ [cand] = A := by
    refine List.dropLast_append_getLast? cand ?_
    rw [Option.mem_def, hlast]
  have hdrop_sub : A.dropLast.Sublist A := List.dropLast_sublist A
  have hdrop_mem : ∀ e ∈ A.dropLast, e ∈ A := fun e he => hdrop_sub.mem he
  have hcand_var_not_drop : cand.1.varName ∉ A.dropLast.map (·.1.varName) := by
    have h2 := hA_vars_nd
    rw [← hAdecomp, List.map_append, List.nodup_append] at h2
    intro hm
    exact h2.2.2 hm (by simp)
  have hcand_reg_not_drop : cand.2 ∉ A.dropLast.map (·.2) := by
    have h2 := hA_regs_nd
    rw [← hAdecomp, List.map_append, List.nodup_append] at h2
    intro hm
    exact h2.2.2 hm (by simp)
  have hmem_act : ∀ x, x ∈ sortByStop (A.dropLast ++ [(lr, cand.2)]) ↔
      x ∈ A.dropLast ∨ x = (lr, cand.2) := by
    intro x
    rw [mem_sortByStop, List.mem_append, List.mem_singleton]
  -- lookup facts for the double update
  have hfind_lr :
      allocFind (allocSet (allocSet st.alloc lr.varName cand.2) cand.1.varName slot)
        lr.varName = some cand.2 := by
    rw [allocFind_set_ne _ cand.1.varName slot lr.varName (fun h => hcand_ne_lr h.symm)]
    exact allocFind_set_self st.alloc lr.varName cand.2
  have hfind_cand : ∀ r ∈ processed, r.varName = cand.1.varName →
      allocFind (allocSet (allocSet st.alloc lr.varName cand.2) cand.1.varName slot)
        r.varName = some slot := by
    intro r _ hvar
    rw [hvar]
    exact allocFind_set_self _ cand.1.varName slot
  have hfind_old : ∀ r ∈ processed, r.varName ≠ cand.1.varName →
      allocFind (allocSet (allocSet st.alloc lr.varName cand.2) cand.1.varName slot)
        r.varName = allocFind st.alloc r.varName := by
    intro r hr hvar
    rw [allocFind_set_ne _ cand.1.varName slot r.varName hvar]
    exact allocFind_set_ne st.alloc lr.varName cand.2 r.varName (hne_old r hr)
  refine ⟨?_, ?_, ?_, ?_, ?_, ?_, ?_, ?_, ?_, ?_⟩
  · -- registers pairwise distinct
    have hperm := (sortByStop_perm (A.dropLast ++ [(lr, cand.2)])).map (·.2)
    rw [List.Perm.nodup_iff hperm, List.map_append, List.nodup_append]
    refine ⟨hA_regs_nd.sublist (hdrop_sub.map (·.2)), by simp, ?_⟩
    intro x hx
    simp only [List.map_cons, List.map_nil, List.mem_singleton]
    intro hx2
    exact hcand_reg_not_drop (hx2 ▸ hx)
  · -- registers drawn from the file
    intro e he
    rcases (hmem_act e).mp he with he | he
    · exact inv.regsMem e (hA_mem e (hdrop_mem e he))
    · rw [he]; exact hcandReg
  · -- variables pairwise distinct
    have hperm := (sortByStop_perm (A.dropLast ++ [(lr, cand.2)])).map (·.1.varName)
    rw [List.Perm.nodup_iff hperm, List.map_append, List.nodup_append]
    refine ⟨hA_vars_nd.sublist (hdrop_sub.map (·.1.varName)), by simp, ?_⟩
    intro x hx
    simp only [List.map_cons, List.map_nil, List.mem_singleton]
    intro hx2
    rcases List.mem_map.mp hx with ⟨e, he, hxe⟩
    have h1 : e.1 ∈ processed := inv.activeProcessed e (hA_mem e (hdrop_mem e he))
    exact hne_old e.1 h1 (by rw [hxe, hx2])
  · -- allocation map agrees with the active list
    intro e he
    rcases (hmem_act e).mp he with he | he
    · have h1 : e.1 ∈ processed := inv.activeProcessed e (hA_mem e (hdrop_mem e he))
      have h2 : e.1.varName ≠ cand.1.varName := by
        intro heq
        exact hcand_var_not_drop (heq ▸ List.mem_map.mpr ⟨e, he, rfl⟩)
      rw [hfind_old e.1 h1 h2]
      exact inv.allocActive e (hA_mem e (hdrop_mem e he))
    · rw [he]
      exact hfind_lr
  · exact sortByStop_sorted _
  · intro e he
    rcases (hmem_act e).mp he with he | he
    · exact List.mem_append_left _ (inv.activeProcessed e (hA_mem e (hdrop_mem e he)))
    · rw [he]
      exact List.mem_append_right _ (List.mem_singleton.mpr rfl)
  · -- register allocations are ended or still active
    intro r hr R hfnd hRreg
    rcases List.mem_append.mp hr with hr | hr
    · by_cases hvar : r.varName = cand.1.varName
      · rw [hfind_cand r hr hvar] at hfnd
        rw [← Option.some_inj.mp hfnd] at hRreg
        exact absurd hRreg (getSpillLocation_not_register st.spillCounter)
      · rw [hfind_old r hr hvar] at hfnd
        rcases inv.regStillActive r hr R hfnd hRreg with hstop | hact
        · exact Or.inl (lt_of_lt_of_le hstop hpos)
        · by_cases hexp : r.stop < lr.start
          · exact Or.inl hexp
          · have hmemA : (r, R) ∈ A := mem_expire.mpr ⟨hact, hexp⟩
            have hne_cand : (r, R) ≠ cand := by
              intro heq
              exact hvar (by rw [← heq])
            have hdrop : (r, R) ∈ A.dropLast := by
              have := hmemA
              rw [← hAdecomp, List.mem_append, List.mem_singleton] at this
              rcases this with h | h
              · exact h
              · exact absurd h hne_cand
            exact Or.inr ((hmem_act (r, R)).mpr (Or.inl hdrop))
    · have hrl : r = lr := List.mem_singleton.mp hr
      subst hrl
      rw [hfind_lr] at hfnd
      refine Or.inr ((hmem_act (r, R)).mpr (Or.inr ?_))
      rw [← Option.some_inj.mp hfnd]
  · -- overlapping ranges do not share a register
    intro r hr r2 hr2 hne hov1 hov2 R hfnd hfnd2 hRreg
    rcases List.mem_append.mp hr with hro | hrn <;>
      rcases List.mem_append.mp hr2 with hr2o | hr2n
    · -- both old
      by_cases hv1 : r.varName = cand.1.varName
      · rw [hfind_cand r hro hv1] at hfnd
        rw [← Option.some_inj.mp hfnd] at hRreg
        exact absurd hRreg (getSpillLocation_not_register st.spillCounter)
      · by_cases hv2 : r2.varName = cand.1.varName
        · rw [hfind_cand r2 hr2o hv2] at hfnd2
          rw [← Option.some_inj.mp hfnd2] at hRreg
          exact absurd hRreg (getSpillLocation_not_register st.spillCounter)
        · rw [hfind_old r hro hv1] at hfnd
          rw [hfind_old r2 hr2o hv2] at hfnd2
          exact inv.noShare r hro r2 hr2o hne hov1 hov2 R hfnd hfnd2 hRreg
    · -- r old, r2 = lr
      have hr2l : r2 = lr := List.mem_singleton.mp hr2n
      subst hr2l
      rw [hfind_lr] at hfnd2
      by_cases hv1 : r.varName = cand.1.varName
      · rw [hfind_cand r hro hv1] at hfnd
        rw [← Option.some_inj.mp hfnd] at hRreg
        exact absurd hRreg (getSpillLocation_not_register st.spillCounter)
      · rw [hfind_old r hro hv1] at hfnd
        rcases inv.regStillActive r hro R hfnd hRreg with hstop | hact
        · omega
        · have hnexp : ¬(r.stop < r2.start) := by omega
          have hmemA : (r, R) ∈ A := mem_expire.mpr ⟨hact, hnexp⟩
          have heqc : (r, R) = cand := by
            refine nodup_map_inj (·.2) A hA_regs_nd (r, R) hmemA cand hcandA ?_
            exact Option.some_inj.mp hfnd2.symm ▸ rfl
          exact hv1 (by rw [← heqc])
    · -- r = lr, r2 old
      have hrl : r = lr := List.mem_singleton.mp hrn
      subst hrl
      rw [hfind_lr] at hfnd
      by_cases hv2 : r2.varName = cand.1.varName
      · rw [hfind_cand r2 hr2o hv2] at hfnd2
        rw [← Option.some_inj.mp hfnd2] at hRreg
        exact absurd hRreg (getSpillLocation_not_register st.spillCounter)
      · rw [hfind_old r2 hr2o hv2] at hfnd2
        rcases inv.regStillActive r2 hr2o R hfnd2 hRreg with hstop | hact
        · omega
        · have hnexp : ¬(r2.stop < r.start) := by omega
          have hmemA : (r2, R) ∈ A := mem_expire.mpr ⟨hact, hnexp⟩
          have heqc : (r2, R) = cand := by
            refine nodup_map_inj (·.2) A hA_regs_nd (r2, R) hmemA cand hcandA ?_
            exact Option.some_inj.mp hfnd.symm ▸ rfl
          exact hv2 (by rw [← heqc])
    · have h1 : r = lr := List.mem_singleton.mp hrn
      have h2 : r2 = lr := List.mem_singleton.mp hr2n
      exact hne (by rw [h1, h2])
  · -- allocation values are registers or spill slots
    intro r hr s hfnd
    rcases List.mem_append.mp hr with hr | hr
    · by_cases hvar : r.varName = cand.1.varName
      · rw [hfind_cand r hr hvar] at hfnd
        exact Or.inr ⟨st.spillCounter, (Option.some_inj.mp hfnd).symm⟩
      · rw [hfind_old r hr hvar] at hfnd
        exact inv.allocShape r hr s hfnd
    · have hrl : r = lr := List.mem_singleton.mp hr
      subst hrl
      rw [hfind_lr] at hfnd
      exact Or.inl ((Option.some_inj.mp hfnd) ▸ hcandReg)
  · intro r hr
    rcases List.mem_append.mp hr with hr | hr
    · exact le_trans (inv.startsLe r hr) hpos
    · exact (List.mem_singleton.mp hr) ▸ le_refl _

/-- One scan step preserves the invariant, whichever branch it takes. -/
theorem scanStep_inv (numRegisters : Nat) (processed : List LiveRange) (pos : Nat)
    (st st1 : ScanState) (lr : LiveRange)
    (h : scanStep numRegisters st lr = .ok st1)
    (inv : ScanInv processed pos st)
    (hfresh : lr.varName ∉ processed.map (·.varName))
    (hpos : pos ≤ lr.start) :
    ScanInv (processed ++ [lr]) lr.start st1 := by
  simp only [scanStep] at h
  split at h
  · -- spill branch
    simp only [handleSpill] at h
    rcases hlast : (expireOldIntervals lr.start st.active).getLast? with _ | cand
    · rw [hlast] at h
      cases h
    · simp only [hlast] at h
      split at h
      · rw [Except.ok.injEq] at h
        rw [← h]
        exact scanInv_spillCand processed pos st lr cand inv hfresh hpos hlast
      · rw [Except.ok.injEq] at h
        rw [← h]
        exact scanInv_spillCurrent processed pos st lr inv hfresh hpos
  · -- free-register branch
    rcases hfree : getFreeRegister (expireOldIntervals lr.start st.active) with _ | reg
    · rw [hfree] at h
      cases h
    · simp only [hfree] at h
      rw [Except.ok.injEq] at h
      rw [← h]
      exact scanInv_free processed pos st lr reg inv hfresh hpos hfree

/-- The initial scanner state satisfies the invariant with no processed
ranges. -/
theorem scanInv_initial : ScanInv [] 0 initialScanState := by
  refine ⟨?_, ?_, ?_, ?_, ?_, ?_, ?_, ?_, ?_, ?_⟩ <;>
    simp [initialScanState]

/-- The scan invariant propagates along the whole scan. -/
theorem linearScan_inv (numRegisters : Nat) :
    ∀ (ranges processed : List LiveRange) (pos : Nat) (st st1 : ScanState),
      linearScan numRegisters st ranges = .ok st1 →
      ((processed ++ ranges).map (·.varName)).Nodup →
      ranges.Pairwise (fun a b => a.start ≤ b.start) →
      (∀ r ∈ ranges, pos ≤ r.start) →
      ScanInv processed pos st →
      ∃ pos2, ScanInv (processed ++ ranges) pos2 st1 := by
  intro ranges
  induction ranges with
  | nil =>
    intro processed pos st st1 h _ _ _ inv
    unfold linearScan at h
    rw [Except.ok.injEq] at h
    rw [List.append_nil]
    exact ⟨pos, h ▸ inv⟩
  | cons lr rest ih =>
    intro processed pos st st1 h hnd hsorted hge inv
    rcases hstep : scanStep numRegisters st lr with e | stM
    · unfold linearScan at h
      rw [hstep] at h
      cases h
    · unfold linearScan at h
      rw [hstep] at h
      have h2 : linearScan numRegisters stM rest = .ok st1 := h
      have hfresh : lr.varName ∉ processed.map (·.varName) := by
        rw [List.map_append, List.nodup_append] at hnd
        intro hm
        exact hnd.2.2 hm (by simp)
      have hpos : pos ≤ lr.start := hge lr (List.mem_cons_self lr rest)
      have inv2 : ScanInv (processed ++ [lr]) lr.start stM :=
        scanStep_inv numRegisters processed pos st stM lr hstep inv hfresh hpos
      have hnd2 : (((processed ++ [lr]) ++ rest).map (·.varName)).Nodup := by
        rw [List.append_assoc]
        simpa using hnd
      have hsorted2 := (List.pairwise_cons.mp hsorted).2
      have hge2 : ∀ r ∈ rest, lr.start ≤ r.start :=
        (List.pairwise_cons.mp hsorted).1
      rcases ih (processed ++ [lr]) lr.start stM st1 h2 hnd2 hsorted2 hge2 inv2 with
        ⟨pos2, hinv2⟩
      refine ⟨pos2, ?_⟩
      rw [List.append_assoc] at hinv2
      simpa using hinv2

/-! ## Claims about the linear-scan allocator -/

/-- The five overlapping live ranges of the C5 counterexample. -/
def c5Ranges : List LiveRange :=
  [ ⟨"t0", 0, 10⟩, ⟨"t1", 0, 10⟩, ⟨"t2", 0, 10⟩, ⟨"t3", 0, 10⟩, ⟨"t4", 0, 10⟩ ]

/-- C5 counterexample: with the pipeline's num_registers = 4, after the
first four of five equal, overlapping ranges are processed only four ranges
are active — strictly fewer than six — yet the fifth range is sent to the
spill path and ends in slot [sp+0] rather than a free register (h and l are
still free), refuting the claim that a free register is assigned whenever
fewer than six ranges are active. -/
theorem c5_counterexample :
    (linearScan registerAllocationNumRegisters initialScanState (c5Ranges.take 4)).map
        (fun st => st.active.length) = .ok 4 ∧
    (4 : Nat) < 6 ∧
    (linearScan registerAllocationNumRegisters initialScanState c5Ranges).map
        (fun st => allocFind st.alloc "t4") = .ok (some "[sp+0]") ∧
    "[sp+0]" ∉ registers := by
  refine ⟨rfl, by decide, rfl, by decide⟩

/-- C5 (amended): the allocator's register file is exactly b, c, d, e, h, l
and the accumulator a is never assigned; but a newly processed range is
assigned a free register only when, after expiry, strictly fewer than
num_registers ranges are active — and the compiler pipeline runs the
allocator with num_registers = 4, not 6.  Under that threshold the new
range does get a register from the file and no spill slot is consumed; and
over a whole scan every allocated value of every range differs from a. -/
theorem c5_register_file (numRegisters : Nat) (st : ScanState) (lr : LiveRange) :
    (registers = ["b", "c", "d", "e", "h", "l"] ∧ "a" ∉ registers ∧
      registerAllocationNumRegisters = 4) ∧
    ((expireOldIntervals lr.start st.active).length < numRegisters →
      numRegisters ≤ 6 →
      ∃ reg st1, scanStep numRegisters st lr = .ok st1 ∧ reg ∈ registers ∧
        allocFind st1.alloc lr.varName = some reg ∧
        st1.spillCounter = st.spillCounter) ∧
    (∀ ranges st1, linearScan numRegisters initialScanState ranges = .ok st1 →
      ranges.Pairwise (fun a b => a.start ≤ b.start) →
      (ranges.map (·.varName)).Nodup →
      ∀ r ∈ ranges, ∀ s, allocFind st1.alloc r.varName = some s → s ≠ "a") := by
  refine ⟨⟨rfl, by decide, rfl⟩, ?_, ?_⟩
  · intro hlen hn6
    rcases getFreeRegister_is_some (expireOldIntervals lr.start st.active)
        (lt_of_lt_of_le hlen hn6) with ⟨reg, hreg, hregIn, _⟩
    refine ⟨reg,
      ⟨sortByStop (expireOldIntervals lr.start st.active ++ [(lr, reg)]),
        allocSet st.alloc lr.varName reg, st.spillCounter⟩, ?_, hregIn, ?_, rfl⟩
    · simp only [scanStep]
      rw [if_neg (not_le.mpr hlen), hreg]
    · exact allocFind_set_self st.alloc lr.varName reg
  · intro ranges st1 hok hsorted hvars r hr s hfnd hs
    rcases linearScan_inv numRegisters ranges [] 0 initialScanState st1 hok
        (by simpa using hvars) hsorted (fun r2 _ => Nat.zero_le _) scanInv_initial with
      ⟨pos2, hinv⟩
    rcases hinv.allocShape r (by simpa using hr) s hfnd with hreg | ⟨k, hk⟩
    · rw [hs] at hreg
      exact absurd hreg (by decide)
    · rw [hs] at hk
      exact getSpillLocation_ne_a k hk.symm

/-- C5 witness: the amended statement's free-register branch applied to a
fresh range in the initial state with the pipeline's register count. -/
theorem c5_register_file_witness :
    ∃ reg st1,
      scanStep registerAllocationNumRegisters initialScanState ⟨"x", 0, 1⟩ = .ok st1 ∧
      reg ∈ registers ∧
      allocFind st1.alloc (LiveRange.mk "x" 0 1).varName = some reg ∧
      st1.spillCounter = initialScanState.spillCounter :=
  (c5_register_file registerAllocationNumRegisters initialScanState ⟨"x", 0, 1⟩).2.1
    (by decide) (by decide)

/-- C9: when the scan processes a new range, expiry removes exactly the
active ranges whose end is strictly before the new range's start, and an
expired range's register is freed (no remaining active range holds it).
Whenever no register is free after expiry the spill path is the one taken
(with at most six registers configured).  On the spill path the comparison
is against the last active entry, which is the latest-ending one; the later
ending of it and the new range is sent to the fresh slot [sp+N] for the
current counter value N — the counter growing by exactly one — while the
other ends up with the contested register. -/
theorem c9_expire_and_spill (numRegisters : Nat) (st : ScanState) (lr : LiveRange)
    (hsorted : st.active.Pairwise (fun a b => a.1.stop ≤ b.1.stop))
    (hnd : (st.active.map (·.2)).Nodup) :
    (∀ e ∈ st.active,
        (e.1.stop < lr.start ↔ e ∉ expireOldIntervals lr.start st.active)) ∧
    (∀ e ∈ st.active, e.1.stop < lr.start →
        e.2 ∉ (expireOldIntervals lr.start st.active).map (·.2)) ∧
    (numRegisters ≤ 6 →
      getFreeRegister (expireOldIntervals lr.start st.active) = none →
      numRegisters ≤ (expireOldIntervals lr.start st.active).length) ∧
    (∀ cand, (expireOldIntervals lr.start st.active).getLast? = some cand →
      (∀ e ∈ expireOldIntervals lr.start st.active, e.1.stop ≤ cand.1.stop) ∧
      (numRegisters ≤ (expireOldIntervals lr.start st.active).length →
        cand.1.varName ≠ lr.varName →
        ∃ st1, scanStep numRegisters st lr = .ok st1 ∧
          st1.spillCounter = st.spillCounter + 1 ∧
          ((lr.stop < cand.1.stop ∧
            allocFind st1.alloc lr.varName = some cand.2 ∧
            allocFind st1.alloc cand.1.varName = some (getSpillLocation st.spillCounter)) ∨
           (cand.1.stop ≤ lr.stop ∧
            allocFind st1.alloc lr.varName = some (getSpillLocation st.spillCounter) ∧
            allocFind st1.alloc cand.1.varName = allocFind st.alloc cand.1.varName)))) := by
  refine ⟨?_, ?_, ?_, ?_⟩
  · intro e he
    constructor
    · intro hlt hm
      exact (mem_expire.mp hm).2 hlt
    · intro hnm
      by_contra hge
      exact hnm (mem_expire.mpr ⟨he, hge⟩)
  · intro e he hlt hm
    rcases List.mem_map.mp hm with ⟨e2, he2, hreg⟩
    have he2act : e2 ∈ st.active := (expire_sublist lr.start st.active).mem he2
    have : e2 = e := nodup_map_inj (·.2) st.active hnd e2 he2act e he hreg
    rw [this] at he2
    exact (mem_expire.mp he2).2 hlt
  · intro hn6 hnone
    have hall := List.find?_eq_none.mp hnone
    have hsubset : registers ⊆ (expireOldIntervals lr.start st.active).map (·.2) := by
      intro r hr
      have hc := hall r hr
      simp only [Bool.not_eq_true, Bool.not_eq_false] at hc
      simpa using hc
    have hcard : (registers.toFinset : Finset String) ⊆
        ((expireOldIntervals lr.start st.active).map (·.2)).toFinset := by
      intro r hr
      rw [List.mem_toFinset] at hr ⊢
      exact hsubset hr
    have h6 : (registers.toFinset : Finset String).card = 6 := by decide
    have hle := Finset.card_le_card hcard
    have hle2 := List.toFinset_card_le ((expireOldIntervals lr.start st.active).map (·.2))
    rw [h6] at hle
    rw [List.length_map] at hle2
    omega
  · intro cand hlast
    have hA_sorted : (expireOldIntervals lr.start st.active).Pairwise
        (fun a b => a.1.stop ≤ b.1.stop) :=
      hsorted.sublist (expire_sublist lr.start st.active)
    refine ⟨sorted_getLast_max _ hA_sorted cand hlast, ?_⟩
    intro hlen hvar
    have hstep : scanStep numRegisters st lr =
        handleSpill ⟨expireOldIntervals lr.start st.active, st.alloc, st.spillCounter⟩ lr := by
      simp only [scanStep]
      rw [if_pos hlen]
    by_cases hcmp : lr.stop < cand.1.stop
    · refine ⟨⟨sortByStop
            ((expireOldIntervals lr.start st.active).dropLast ++ [(lr, cand.2)]),
          allocSet (allocSet st.alloc lr.varName cand.2) cand.1.varName
            (getSpillLocation st.spillCounter),
          st.spillCounter + 1⟩, ?_, rfl, Or.inl ⟨hcmp, ?_, ?_⟩⟩
      · rw [hstep]
        simp only [handleSpill, hlast]
        rw [if_pos hcmp]
      · rw [allocFind_set_ne _ cand.1.varName _ lr.varName (fun h => hvar h.symm)]
        exact allocFind_set_self st.alloc lr.varName cand.2
      · exact allocFind_set_self _ cand.1.varName _
    · refine ⟨⟨expireOldIntervals lr.start st.active,
          allocSet st.alloc lr.varName (getSpillLocation st.spillCounter),
          st.spillCounter + 1⟩, ?_, rfl, Or.inr ⟨le_of_not_lt hcmp, ?_, ?_⟩⟩
      · rw [hstep]
        simp only [handleSpill, hlast]
        rw [if_neg hcmp]
      · exact allocFind_set_self st.alloc lr.varName _
      · exact allocFind_set_ne st.alloc lr.varName _ cand.1.varName hvar

/-- C9 witness: the expiry and spill mechanics applied to a concrete state
with one active range (x in register b) and a new overlapping range y with
num_registers = 1: x ends later, so x moves to slot [sp+0] and y takes b. -/
theorem c9_expire_and_spill_witness :
    ∃ st1,
      scanStep 1 { active := [(⟨"x", 0, 5⟩, "b")], alloc := [("x", "b")], spillCounter := 0 }
          ⟨"y", 1, 3⟩ = .ok st1 ∧
      st1.spillCounter = 0 + 1 ∧
      (((LiveRange.mk "y" 1 3).stop < (LiveRange.mk "x" 0 5, "b").1.stop ∧
        allocFind st1.alloc (LiveRange.mk "y" 1 3).varName = some ((LiveRange.mk "x" 0 5, "b")).2 ∧
        allocFind st1.alloc ((LiveRange.mk "x" 0 5, "b")).1.varName = some (getSpillLocation 0)) ∨
       (((LiveRange.mk "x" 0 5, "b")).1.stop ≤ (LiveRange.mk "y" 1 3).stop ∧
        allocFind st1.alloc (LiveRange.mk "y" 1 3).varName = some (getSpillLocation 0) ∧
        allocFind st1.alloc ((LiveRange.mk "x" 0 5, "b")).1.varName =
          allocFind [("x", "b")] ((LiveRange.mk "x" 0 5, "b")).1.varName)) :=
  ((c9_expire_and_spill 1
      { active := [(⟨"x", 0, 5⟩, "b")], alloc := [("x", "b")], spillCounter := 0 }
      ⟨"y", 1, 3⟩ (by decide) (by decide)).2.2.2
    (⟨"x", 0, 5⟩, "b") (by decide)).2 (by decide) (by decide)

/-- C10: throughout the linear scan no two simultaneously active ranges
hold the same register (the active list's registers are duplicate-free
after every prefix of the scan), and in the final allocation map two
distinct ranges whose intervals overlap are never both mapped to the same
register — if their allocations coincide, the shared value is not a
register (it is a spill slot). -/
theorem c10_no_register_sharing (numRegisters : Nat) (ranges : List LiveRange)
    (st1 : ScanState)
    (hok : linearScan numRegisters initialScanState ranges = .ok st1)
    (hsorted : ranges.Pairwise (fun a b => a.start ≤ b.start))
    (hvars : (ranges.map (·.varName)).Nodup) :
    (∀ xs ys stM, ranges = xs ++ ys →
        linearScan numRegisters initialScanState xs = .ok stM →
        (stM.active.map (·.2)).Nodup) ∧
    (∀ r ∈ ranges, ∀ r2 ∈ ranges, r.varName ≠ r2.varName →
        r.start ≤ r2.stop → r2.start ≤ r.stop →
        ∀ R, allocFind st1.alloc r.varName = some R →
          allocFind st1.alloc r2.varName = some R → R ∉ registers) := by
  constructor
  · intro xs ys stM heq hokM
    have hsortedXs : xs.Pairwise (fun a b => a.start ≤ b.start) := by
      rw [heq] at hsorted
      exact hsorted.sublist (List.sublist_append_left xs ys)
    have hvarsXs : (xs.map (·.varName)).Nodup := by
      rw [heq, List.map_append, List.nodup_append] at hvars
      exact hvars.1
    rcases linearScan_inv numRegisters xs [] 0 initialScanState stM hokM
        (by simpa using hvarsXs) hsortedXs (fun r _ => Nat.zero_le _) scanInv_initial with
      ⟨pos2, hinv⟩
    exact hinv.regsNodup
  · intro r hr r2 hr2 hne hov1 hov2 R hfnd hfnd2
    rcases linearScan_inv numRegisters ranges [] 0 initialScanState st1 hok
        (by simpa using hvars) hsorted (fun r3 _ => Nat.zero_le _) scanInv_initial with
      ⟨pos2, hinv⟩
    exact hinv.noShare r (by simpa using hr) r2 (by simpa using hr2) hne hov1 hov2 R hfnd hfnd2

/-- The two overlapping ranges of the C10 witness. -/
def c10Ranges : List LiveRange := [⟨"x", 0, 2⟩, ⟨"y", 1, 3⟩]

/-- The scanner state the scan of c10Ranges produces with six registers. -/
def c10FinalState : ScanState :=
  { active := [(⟨"x", 0, 2⟩, "b"), (⟨"y", 1, 3⟩, "c")]
  , alloc := [("y", "c"), ("x", "b")]
  , spillCounter := 0 }

/-- C10 witness: the no-sharing theorem applied to the two-range scan. -/
theorem c10_no_register_sharing_witness :
    (c10FinalState.active.map (·.2)).Nodup :=
  (c10_no_register_sharing 6 c10Ranges c10FinalState rfl (by decide) (by decide)).1
    c10Ranges [] c10FinalState (by simp) rfl

/-! ## Claims about the IR rewriter -/

/-- C7 counterexample: a procedure with one spilled allocation whose body
is a single return.  The claim says a matching epilogue adjustment is
placed at each return so that it executes before control leaves the
procedure; in fact the rewritten list places the single epilogue after the
return (indices 3 and 4, with the return at index 2), and no stack-pointer
increase precedes the return. -/
theorem c7_counterexample :
    rewriteInstructions "f" [("x", "[sp+0]")] [.ret none] =
      [ .label "f_prologue", .binaryOp "-" "sp" "sp" "2"
      , .ret none
      , .label "f_epilogue", .binaryOp "+" "sp" "sp" "2" ] ∧
    ((rewriteInstructions "f" [("x", "[sp+0]")] [.ret none]).take 3).all
        (fun i => !(i = IRInstr.binaryOp "+" "sp" "sp" "2")) = true := by
  refine ⟨rfl, rfl⟩

/-- C7 (amended): when at least one allocation is a spill, the rewritten
instruction list is the prologue, then the rewritten body, then a single
epilogue appended after the last instruction; the epilogue is not placed
at each return.  The prologue and epilogue adjust the stack pointer by the
same spill byte count in opposite directions, and a rewritten return
consists only of an optional spill reload followed by the return itself —
it contains no stack-pointer adjustment, so a return that is not the last
instruction leaves the procedure without the epilogue executing. -/
theorem c7_epilogue_once_at_end (procName : String)
    (alloc : List (String × String)) (instrs : List IRInstr)
    (hspill : hasSpillAlloc alloc = true) (hcount : 0 < spillCount alloc) :
    rewriteInstructions procName alloc instrs =
      [ IRInstr.label (procName ++ "_prologue")
      , IRInstr.binaryOp "-" "sp" "sp" (toString (spillCount alloc)) ] ++
      instrs.flatMap (rewriteInstr alloc) ++
      [ IRInstr.label (procName ++ "_epilogue")
      , IRInstr.binaryOp "+" "sp" "sp" (toString (spillCount alloc)) ] ∧
    (∀ v ins, ins ∈ rewriteInstr alloc (.ret v) →
      (∃ d a, ins = IRInstr.load d a) ∨ ∃ w, ins = IRInstr.ret w) := by
  constructor
  · simp only [rewriteInstructions, hspill, if_true, generatePrologue, generateEpilogue,
      if_pos hcount]
  · intro v ins hins
    match v with
    | none =>
      simp only [rewriteInstr, List.mem_singleton] at hins
      exact Or.inr ⟨none, hins⟩
    | some w =>
      simp only [rewriteInstr] at hins
      rcases hfind : allocFind alloc w with _ | va
      · rw [hfind] at hins
        simp only [List.mem_singleton] at hins
        exact Or.inr ⟨some w, hins⟩
      · rw [hfind] at hins
        by_cases hreg : rewriterIsRegister va
        · simp only [hreg, Bool.not_true, Bool.false_eq_true, if_false,
            List.mem_singleton] at hins
          exact Or.inr ⟨some va, hins⟩
        · simp only [hreg, Bool.not_false, if_true, List.mem_cons,
            List.mem_singleton] at hins
          rcases hins with h | h | h
          · exact Or.inl ⟨"a", va, h⟩
          · exact Or.inr ⟨some "a", h⟩
          · cases h

/-! ## Claim about the liveness fixed point -/

/-- Once the changed flag is raised, the rest of a round keeps it raised. -/
theorem roundStep_true (instrs : List IRInstr) (p : LiveState × Bool) (i : Nat)
    (h : p.2 = true) : (roundStep instrs p i).2 = true := by
  unfold roundStep
  split
  · rfl
  · exact h

/-- A fold of round steps starting with the flag raised ends with it
raised. -/
theorem foldl_roundStep_true (instrs : List IRInstr) :
    ∀ (L : List Nat) (p : LiveState × Bool), p.2 = true →
      (L.foldl (roundStep instrs) p).2 = true := by
  intro L
  induction L with
  | nil => intro p h; exact h
  | cons i L ih =>
    intro p h
    exact ih (roundStep instrs p i) (roundStep_true instrs p i h)

/-- If a full fold of round steps reports no change, then no individual
step changed anything: at every index of the list the recomputed live_in
and live_out coincide with the current ones. -/
theorem foldl_roundStep_false (instrs : List IRInstr) :
    ∀ (L : List Nat) (st : LiveState),
      (L.foldl (roundStep instrs) (st, false)).2 = false →
      ∀ i ∈ L,
        useVars instrs i ∪ (st.lout.getD i ∅ \ defVars instrs i) = st.lin.getD i ∅ ∧
        outUnion st (cfgSuccs instrs i) = st.lout.getD i ∅ := by
  intro L
  induction L with
  | nil => intro st _ i hi; cases hi
  | cons j L ih =>
    intro st hfold i hi
    have hstep : roundStep instrs (st, false) j = (st, false) := by
      unfold roundStep
      split
      · rename_i hcond
        exfalso
        have : ((L.foldl (roundStep instrs) (roundStep instrs (st, false) j)).2 = true) := by
          apply foldl_roundStep_true
          unfold roundStep
          split
          · rfl
          · rename_i hcond2
            exact absurd hcond hcond2
        rw [List.foldl_cons] at hfold
        rw [this] at hfold
        cases hfold
      · rfl
    have hjeq :
        useVars instrs j ∪ (st.lout.getD j ∅ \ defVars instrs j) = st.lin.getD j ∅ ∧
        outUnion st (cfgSuccs instrs j) = st.lout.getD j ∅ := by
      by_contra hc
      have hcond : useVars instrs j ∪ (st.lout.getD j ∅ \ defVars instrs j) ≠ st.lin.getD j ∅ ∨
          outUnion st (cfgSuccs instrs j) ≠ st.lout.getD j ∅ := by
        by_contra hd
        push_neg at hd
        exact hc ⟨hd.1, hd.2⟩
      have htrue : (roundStep instrs (st, false) j).2 = true := by
        unfold roundStep
        rw [if_pos hcond]
      rw [hstep] at htrue
      cases htrue
    rcases List.mem_cons.mp hi with hi2 | hi2
    · exact hi2 ▸ hjeq
    · have hrest : (L.foldl (roundStep instrs) (st, false)).2 = false := by
        rw [List.foldl_cons, hstep] at hfold
        exact hfold
      exact ih st hrest i hi2

/-- Membership in the accumulated union over successors. -/
theorem mem_foldl_union (st : LiveState) (v : String) :
    ∀ (L : List Nat) (acc : Finset String),
      (v ∈ L.foldl (fun a j => a ∪ st.lin.getD j ∅) acc ↔
        v ∈ acc ∨ ∃ j ∈ L, v ∈ st.lin.getD j ∅) := by
  intro L
  induction L with
  | nil => intro acc; simp
  | cons j L ih =>
    intro acc
    rw [List.foldl_cons, ih]
    simp only [Finset.mem_union, List.mem_cons]
    constructor
    · rintro ((h | h) | ⟨k, hk, hv⟩)
      · exact Or.inl h
      · exact Or.inr ⟨j, Or.inl rfl, h⟩
      · exact Or.inr ⟨k, Or.inr hk, hv⟩
    · rintro (h | ⟨k, hk | hk, hv⟩)
      · exact Or.inl (Or.inl h)
      · exact Or.inl (Or.inr (hk ▸ hv))
      · exact Or.inr ⟨k, hk, hv⟩

/-- C8: when the iterative liveness computation stops — a full round over
the instruction indices reports no change — the sets satisfy the dataflow
equations at every index i: live_in[i] is use[i] joined with live_out[i]
minus def[i], and live_out[i] is the union of live_in over the CFG
successors of i.  Consequently use[i] is contained in live_in[i], and a
variable live out of i and not defined at i is live into i. -/
theorem c8_liveness_fixpoint (instrs : List IRInstr) (st : LiveState)
    (hstop : (livenessRound instrs st).2 = false) :
    ∀ i < instrs.length,
      st.lin.getD i ∅ = useVars instrs i ∪ (st.lout.getD i ∅ \ defVars instrs i) ∧
      st.lout.getD i ∅ = outUnion st (cfgSuccs instrs i) ∧
      (∀ v, v ∈ st.lout.getD i ∅ ↔ ∃ j ∈ cfgSuccs instrs i, v ∈ st.lin.getD j ∅) ∧
      useVars instrs i ⊆ st.lin.getD i ∅ ∧
      (∀ v ∈ st.lout.getD i ∅, v ∉ defVars instrs i → v ∈ st.lin.getD i ∅) := by
  intro i hi
  have hmem : i ∈ (List.range instrs.length).reverse := by
    rw [List.mem_reverse, List.mem_range]
    exact hi
  have heqs := foldl_roundStep_false instrs (List.range instrs.length).reverse st hstop i hmem
  have h1 : st.lin.getD i ∅ = useVars instrs i ∪ (st.lout.getD i ∅ \ defVars instrs i) :=
    heqs.1.symm
  have h2 : st.lout.getD i ∅ = outUnion st (cfgSuccs instrs i) := heqs.2.symm
  refine ⟨h1, h2, ?_, ?_, ?_⟩
  · intro v
    rw [h2]
    exact mem_foldl_union st v (cfgSuccs instrs i) ∅ |>.trans (by simp)
  · rw [h1]
    exact Finset.subset_union_left
  · intro v hv hnd
    rw [h1]
    rw [Finset.mem_union, Finset.mem_sdiff]
    exact Or.inr ⟨hv, hnd⟩

/-- A two-instruction procedure (a constant definition and a return) at its
liveness fixed point. -/
def c8Instrs : List IRInstr := [.constant "t0" 1, .ret (some "t0")]

/-- The fixed-point live_in / live_out sets for c8Instrs. -/
def c8State : LiveState :=
  { lin := [∅, {"t0"}], lout := [{"t0"}, ∅] }

/-- C8 witness: the fixed-point theorem applied to the two-instruction
procedure at its concrete fixed point. -/
theorem c8_liveness_fixpoint_witness :
    c8State.lin.getD 1 ∅ = useVars c8Instrs 1 ∪ (c8State.lout.getD 1 ∅ \ defVars c8Instrs 1) ∧
    useVars c8Instrs 1 ⊆ c8State.lin.getD 1 ∅ := by
  have h := c8_liveness_fixpoint c8Instrs c8State (by decide) 1 (by decide)
  exact ⟨h.1, h.2.2.2.1⟩

/-- C7 witness: the amended statement applied to the single-spill,
single-return procedure. -/
theorem c7_epilogue_once_at_end_witness :
    rewriteInstructions "f" [("x", "[sp+0]")] [.ret none] =
      [ IRInstr.label ("f" ++ "_prologue")
      , IRInstr.binaryOp "-" "sp" "sp" (toString (spillCount [("x", "[sp+0]")])) ] ++
      ([.ret none] : List IRInstr).flatMap (rewriteInstr [("x", "[sp+0]")]) ++
      [ IRInstr.label ("f" ++ "_epilogue")
      , IRInstr.binaryOp "+" "sp" "sp" (toString (spillCount [("x", "[sp+0]")])) ] :=
  (c7_epilogue_once_at_end "f" [("x", "[sp+0]")] [.ret none] (by decide) (by decide)).1

end Penguin
